import Mathlib

/-!
Shallow embedding of the indexing orchestration core of `crates/pontos/src/lib.rs`
(the `Pontos` engine): the bounded range traversal `index_block_range`, the
pending-tail traversal `index_pending` (modelled as one tick of its loop plus a
bounded run), and the shared event pipeline `process_events`.

External collaborators (chain client, storage-backed managers, event handler)
are modelled as oracle functions returning `Except IndexerError`; the
orchestrator's observable behaviour is captured by an explicit effect trace and
by a block-status store threaded through the functions.  Manager internals are
not part of the source tree; where their behaviour is needed it is modelled
from the spec and marked as such.
-/

namespace ArkPontos

abbrev TxHash := Nat
abbrev Addr := Nat

/-- Raw chain event (`starknet::core::types::EmittedEvent` as used by the
orchestrator): source contract address, event keys/data, owning tx hash. -/
structure EmittedEvent where
  from_address : Addr
  keys : List Nat
  data : List Nat
  tx_hash : TxHash
deriving DecidableEq, Repr

/-- Contract classification result (`storage::types::ContractType`): at least
one relevant kind plus the irrelevant kind `other`. -/
inductive ContractType
  | erc721
  | erc1155
  | other
deriving DecidableEq, Repr

/-- Normalized token event produced by the event manager: contract type, block
timestamp, decoded action and target token identity. -/
structure TokenEvent where
  contract_type : ContractType
  block_timestamp : Nat
  action : Nat
  token_id : Nat
deriving DecidableEq, Repr

/-- Generic errors for Pontos (`IndexerError` in `lib.rs`): a wrapped storage
error or a wrapped generic error. -/
inductive IndexerError
  | storageError (code : Nat)
  | anyhow (msg : String)
deriving DecidableEq, Repr

/-- Block indexing status (`storage::types::BlockIndexingStatus`). -/
inductive BlockIndexingStatus
  | none_
  | processing
  | terminated
deriving DecidableEq, Repr

/-- Indexer configuration (`PontosConfig`): immutable version and identifier
strings stamped on block status writes. -/
structure PontosConfig where
  indexer_version : String
  indexer_identifier : String

/-- Block identifier as passed to the chain client: a concrete number or a
symbolic tag (`Latest` / `Pending`). -/
inductive BlockId
  | number (n : Nat)
  | tagLatest
  | tagPending
deriving DecidableEq, Repr

/-- Percentage reported to the event handler when a block terminates:
`(current_u64 as f64 / to_u64 as f64) * 100.0` from `index_block_range`. -/
def pct_of (current_u64 to_u64 : Nat) : Float :=
  (current_u64.toFloat / to_u64.toFloat) * 100.0

/-- One observable effect of the orchestrator: a manager/storage mutation, an
outbound fetch, a pipeline stage invocation, or an event-handler notification.
Pure reads that only steer control flow (`block_txs_hashes`, `block_number`,
`block_id_to_u64`, `should_skip_indexing`) are not traced. -/
inductive Effect
  | identifyCall (addr : Addr) (block_number : Nat)
  | registerEventCall (e : EmittedEvent) (ct : ContractType) (block_timestamp : Nat)
  | registerTokenCall (te : TokenEvent)
  | eventsFromTx (tx : TxHash)
  | blockTimeFetch (block_number : Nat)
  | fetchEventsCall (block_number : Nat)
  | setBlockInfo (block_number : Nat) (version identifier : String)
      (status : BlockIndexingStatus)
  | cleanBlockCall (ts : Nat)
  | updateLastPendingBlockCall (block_number ts : Nat)
  | onBlockProcessing (block_number : Nat)
  | onTerminated (block_number : Nat) (pct : Float)
deriving Repr

/-- Oracles for the three event-pipeline stages: contract classification
(`CollectionManager::identify_contract`), event registration
(`EventManager::format_and_register_event`) and token registration
(`TokenManager::format_and_register_token`). -/
structure PipelineEnv where
  identify_contract : Addr → Nat → Except IndexerError ContractType
  format_and_register_event :
      EmittedEvent → ContractType → Nat → Except IndexerError TokenEvent
  format_and_register_token : TokenEvent → Except IndexerError Unit

/-- Translation of the body of `Pontos::process_events` (lib.rs lines 294-351)
for one event: classify the contract (on error: log and skip), drop events of
irrelevant contracts, register the event (on error: log and skip), register
the token (on error: log and skip).  The returned list records the stage
invocations for this event, in order. -/
def process_one_event (p : PipelineEnv) (block_number block_timestamp : Nat)
    (e : EmittedEvent) : List Effect :=
  match p.identify_contract e.from_address block_number with
  | .error _ => [.identifyCall e.from_address block_number]
  | .ok contract_type =>
    if contract_type = ContractType.other then
      [.identifyCall e.from_address block_number]
    else
      match p.format_and_register_event e contract_type block_timestamp with
      | .error _ =>
        [.identifyCall e.from_address block_number,
         .registerEventCall e contract_type block_timestamp]
      | .ok token_event =>
        -- The token registration is invoked; both its Ok and Err arms continue
        -- to the next event, so the recorded trace is the same in either case.
        [.identifyCall e.from_address block_number,
         .registerEventCall e contract_type block_timestamp,
         .registerTokenCall token_event]

/-- Translation of `Pontos::process_events` (lib.rs lines 294-351): iterate the
events in delivery order; every per-event failure is swallowed (`continue`);
the function itself always reaches `Ok(())`.  The source's parameter order is
`(events, block_number, block_timestamp)`; here the event list is the last
parameter to ease structural recursion. -/
def process_events (p : PipelineEnv) (block_number block_timestamp : Nat) :
    List EmittedEvent → Except IndexerError (List Effect)
  | [] => .ok []
  | e :: rest =>
    let tail := process_events p block_number block_timestamp rest
    match p.identify_contract e.from_address block_number with
    | .error _ =>
      (tail.map fun tr => .identifyCall e.from_address block_number :: tr)
    | .ok contract_type =>
      if contract_type = ContractType.other then
        (tail.map fun tr => .identifyCall e.from_address block_number :: tr)
      else
        match p.format_and_register_event e contract_type block_timestamp with
        | .error _ =>
          (tail.map fun tr =>
            .identifyCall e.from_address block_number ::
            .registerEventCall e contract_type block_timestamp :: tr)
        | .ok token_event =>
          -- Both arms of the token-registration match continue identically.
          (tail.map fun tr =>
            .identifyCall e.from_address block_number ::
            .registerEventCall e contract_type block_timestamp ::
            .registerTokenCall token_event :: tr)

/-- The flatMap of per-event traces equals the loop's trace, event by event. -/
theorem process_events_eq_flatMap (p : PipelineEnv) (block_number block_timestamp : Nat)
    (events : List EmittedEvent) :
    process_events p block_number block_timestamp events =
      .ok (events.flatMap (process_one_event p block_number block_timestamp)) := by
  induction events with
  | nil => rfl
  | cons e rest ih =>
    simp only [process_events, ih, process_one_event, List.flatMap_cons]
    cases h : p.identify_contract e.from_address block_number with
    | error err => simp [Except.map]
    | ok ct =>
      by_cases hct : ct = ContractType.other
      · simp [hct, Except.map]
      · simp only [hct, if_false]
        cases hf : p.format_and_register_event e ct block_timestamp with
        | error err => simp [Except.map]
        | ok te => simp [Except.map]

/-- The address a registrar-stage invocation was made for, if the effect is an
event-registration call. -/
def regEventAddr : Effect → Option Addr
  | .registerEventCall e _ _ => some e.from_address
  | _ => none

/-- Distinct contract addresses for which `format_and_register_event` was
invoked somewhere in a trace. -/
def registrarContracts (tr : List Effect) : List Addr :=
  (tr.filterMap regEventAddr).dedup

/-- Whether the classifier resolves an address to a relevant (non-`other`)
contract type at the given block. -/
def classifiesRelevant (p : PipelineEnv) (block_number : Nat) (a : Addr) : Bool :=
  match p.identify_contract a block_number with
  | .ok ct => decide (ct ≠ ContractType.other)
  | .error _ => false

/-- Distinct contract addresses among the events whose classification resolves
to a relevant type. -/
def relevantContracts (p : PipelineEnv) (block_number : Nat)
    (events : List EmittedEvent) : List Addr :=
  ((events.map (fun e => e.from_address)).dedup).filter (classifiesRelevant p block_number)

theorem registerEventCall_mem_process_one_event (p : PipelineEnv)
    (block_number block_timestamp : Nat) (e e' : EmittedEvent) (ct : ContractType)
    (bts : Nat) :
    Effect.registerEventCall e' ct bts ∈
        process_one_event p block_number block_timestamp e ↔
      e' = e ∧ bts = block_timestamp ∧
        p.identify_contract e.from_address block_number = .ok ct ∧
        ct ≠ ContractType.other := by
  unfold process_one_event
  cases h : p.identify_contract e.from_address block_number with
  | error err => simp
  | ok ct' =>
    by_cases hct : ct' = ContractType.other
    · subst hct
      simp only [if_pos rfl, List.mem_singleton]
      constructor
      · intro h'
        exact absurd h' (by simp)
      · rintro ⟨rfl, rfl, hc, hne⟩
        exact absurd (by simpa using hc.symm) hne
    · simp only [hct, if_false]
      cases hf : p.format_and_register_event e ct' block_timestamp with
      | error err =>
        simp only [List.mem_cons, List.not_mem_nil, or_false]
        constructor
        · rintro (h' | h')
          · exact absurd h' (by simp)
          · obtain ⟨rfl, rfl, rfl⟩ := by simpa using h'
            exact ⟨rfl, rfl, rfl, hct⟩
        · rintro ⟨rfl, rfl, hc, -⟩
          obtain rfl : ct' = ct := by simpa using hc
          exact Or.inr rfl
      | ok te =>
        simp only [List.mem_cons, List.not_mem_nil, or_false]
        constructor
        · rintro (h' | h' | h')
          · exact absurd h' (by simp)
          · obtain ⟨rfl, rfl, rfl⟩ := by simpa using h'
            exact ⟨rfl, rfl, rfl, hct⟩
          · exact absurd h' (by simp)
        · rintro ⟨rfl, rfl, hc, -⟩
          obtain rfl : ct' = ct := by simpa using hc
          exact Or.inr (Or.inl rfl)

theorem registerEventCall_mem_flatMap (p : PipelineEnv)
    (block_number block_timestamp : Nat) (events : List EmittedEvent)
    (e : EmittedEvent) (ct : ContractType) (bts : Nat) :
    Effect.registerEventCall e ct bts ∈
        events.flatMap (process_one_event p block_number block_timestamp) ↔
      e ∈ events ∧ bts = block_timestamp ∧
        p.identify_contract e.from_address block_number = .ok ct ∧
        ct ≠ ContractType.other := by
  rw [List.mem_flatMap]
  constructor
  · rintro ⟨e₀, he₀, hmem⟩
    obtain ⟨rfl, h1, h2, h3⟩ :=
      (registerEventCall_mem_process_one_event p block_number block_timestamp
        e₀ e ct bts).1 hmem
    exact ⟨he₀, h1, h2, h3⟩
  · rintro ⟨he, h1, h2, h3⟩
    exact ⟨e, he,
      (registerEventCall_mem_process_one_event p block_number block_timestamp
        e e ct bts).2 ⟨rfl, h1, h2, h3⟩⟩

/-- C5: for every event list, block number and timestamp, a failure in any
stage of the pipeline for one event skips only that event: `process_events`
still processes the surrounding events in delivery order (each contributing
exactly its own per-event trace) and always returns `Ok`. -/
theorem process_events_failure_localized (p : PipelineEnv)
    (block_number block_timestamp : Nat) (pre post : List EmittedEvent)
    (e : EmittedEvent) :
    process_events p block_number block_timestamp (pre ++ e :: post) =
      .ok (pre.flatMap (process_one_event p block_number block_timestamp) ++
        (process_one_event p block_number block_timestamp e ++
          post.flatMap (process_one_event p block_number block_timestamp))) := by
  rw [process_events_eq_flatMap]
  simp

/-- C6: an event whose contract classifies as `ContractType.other` is dropped
before the registrar stage (its per-event trace is the classification call
only, so neither `format_and_register_event` nor `format_and_register_token`
is invoked for it); an event-registration call appears in the trace exactly
for events whose contract classifies to a relevant type, and the distinct
contract addresses reaching the registrar stage are exactly the relevantly
classified ones among the events' contracts (so with `N` distinct contracts of
which `M` classify as `other`, exactly `N - M` contracts reach the registrar). -/
theorem other_contracts_skipped_before_registrar (p : PipelineEnv)
    (block_number block_timestamp : Nat) (events : List EmittedEvent)
    (tr : List Effect)
    (h : process_events p block_number block_timestamp events = .ok tr) :
    (∀ e ∈ events,
        p.identify_contract e.from_address block_number = .ok ContractType.other →
        process_one_event p block_number block_timestamp e =
          [.identifyCall e.from_address block_number]) ∧
    (∀ (e : EmittedEvent) (ct : ContractType) (bts : Nat),
        Effect.registerEventCall e ct bts ∈ tr ↔
          e ∈ events ∧ bts = block_timestamp ∧
            p.identify_contract e.from_address block_number = .ok ct ∧
            ct ≠ ContractType.other) ∧
    (registrarContracts tr).Perm (relevantContracts p block_number events) := by
  rw [process_events_eq_flatMap] at h
  obtain rfl : events.flatMap (process_one_event p block_number block_timestamp) = tr :=
    Except.ok.inj h
  refine ⟨?_, ?_, ?_⟩
  · intro e _ hother
    unfold process_one_event
    rw [hother]
    simp
  · intro e ct bts
    exact registerEventCall_mem_flatMap p block_number block_timestamp events e ct bts
  · apply (List.perm_ext_iff_of_nodup (List.nodup_dedup _)
      (((events.map (fun e => e.from_address)).nodup_dedup).filter _)).2
    intro a
    simp only [registrarContracts, relevantContracts, List.mem_dedup,
      List.mem_filterMap, List.mem_filter, List.mem_map]
    constructor
    · rintro ⟨eff, heff, ha⟩
      cases eff with
      | registerEventCall e ct bts =>
        obtain rfl : e.from_address = a := by simpa [regEventAddr] using ha
        obtain ⟨he, -, hid, hne⟩ :=
          (registerEventCall_mem_flatMap p block_number block_timestamp events
            e ct bts).1 heff
        refine ⟨⟨e, he, rfl⟩, ?_⟩
        simp [classifiesRelevant, hid, hne]
      | identifyCall a' b' => simp [regEventAddr] at ha
      | registerTokenCall te => simp [regEventAddr] at ha
      | eventsFromTx tx => simp [regEventAddr] at ha
      | blockTimeFetch b' => simp [regEventAddr] at ha
      | fetchEventsCall b' => simp [regEventAddr] at ha
      | setBlockInfo b' v i s => simp [regEventAddr] at ha
      | cleanBlockCall t => simp [regEventAddr] at ha
      | updateLastPendingBlockCall b' t => simp [regEventAddr] at ha
      | onBlockProcessing b' => simp [regEventAddr] at ha
      | onTerminated b' q => simp [regEventAddr] at ha
    · rintro ⟨⟨e, he, rfl⟩, hcl⟩
      obtain ⟨ct, hid, hne⟩ : ∃ ct,
          p.identify_contract e.from_address block_number = .ok ct ∧
            ct ≠ ContractType.other := by
        revert hcl
        unfold classifiesRelevant
        cases hi : p.identify_contract e.from_address block_number with
        | error err => simp
        | ok ct => intro hcl; exact ⟨ct, rfl, by simpa using hcl⟩
      refine ⟨Effect.registerEventCall e ct block_timestamp, ?_, by simp [regEventAddr]⟩
      exact (registerEventCall_mem_flatMap p block_number block_timestamp events
        e ct block_timestamp).2 ⟨he, rfl, hid, hne⟩

/-- Modelled from the spec: the per-block record kept by the
BlockStatusTracker (BlockManager is not part of the visible source): each
block number maps to an indexing status stamped with the indexer version and
identifier that wrote it (absent for the pending-rollover write, which carries
no configuration). -/
structure BlockEntry where
  indexer_version : Option String
  indexer_identifier : Option String
  status : BlockIndexingStatus
deriving DecidableEq, Repr

/-- Modelled from the spec: the BlockStatusTracker's store, block number to
status record. -/
abbrev BlockStore := Nat → Option BlockEntry

/-- Modelled from the spec: `BlockManager::should_skip_indexing` — skip iff
the block is already `Terminated` under the same version and `force` is
false. -/
def should_skip_indexing (store : BlockStore) (block_number : Nat)
    (version : String) (do_force : Bool) : Bool :=
  if do_force then false
  else
    match store block_number with
    | some entry =>
      decide (entry.status = BlockIndexingStatus.terminated ∧
        entry.indexer_version = some version)
    | none => false

/-- Modelled from the spec: `BlockManager::set_block_info` — write the status
for a block, stamped with version and identifier. -/
def set_block_info (store : BlockStore) (block_number : Nat)
    (version identifier : String) (status : BlockIndexingStatus) : BlockStore :=
  fun m =>
    if m = block_number then some ⟨some version, some identifier, status⟩
    else store m

/-- Modelled from the spec: `BlockManager::clean_block` — purge the status
record stored under a (timestamp-keyed) block identifier. -/
def clean_block (store : BlockStore) (ts : Nat) : BlockStore :=
  fun m => if m = ts then none else store m

/-- Modelled from the spec: `BlockManager::update_last_pending_block` —
persist the Terminated status transition for the concrete block number the
pending block sealed into (no configuration stamp is available to the
BlockManager). -/
def update_last_pending_block (store : BlockStore) (block_number ts : Nat) :
    BlockStore :=
  fun m =>
    if m = block_number then
      some ⟨none, none, BlockIndexingStatus.terminated⟩
    else store m

/-- Chain-client oracles used by `index_block_range`: symbolic block-id
resolution, block timestamp lookup, and the filtered per-block event fetch
(the values of the returned block-to-events map, in iteration order). -/
structure RangeEnv where
  block_id_to_u64 : BlockId → Except IndexerError Nat
  block_time : Nat → Except IndexerError Nat
  fetch_events : Nat → Except IndexerError (List (List EmittedEvent))
  pipeline : PipelineEnv

/-- The `for (_, events) in blocks_events` loop of `index_block_range`
(lib.rs lines 271-273): run `process_events` on each entry, propagating its
error with the `?` operator. -/
def process_all (p : PipelineEnv) (block_number block_timestamp : Nat) :
    List (List EmittedEvent) → Except IndexerError (List Effect)
  | [] => .ok []
  | events :: rest =>
    match process_events p block_number block_timestamp events with
    | .error e => .error e
    | .ok tr =>
      match process_all p block_number block_timestamp rest with
      | .error e => .error e
      | .ok tr' => .ok (tr ++ tr')

/-- The main loop of `Pontos::index_block_range` (lib.rs lines 225-288): stop
past `to_u64`; skip an already-terminated block; otherwise notify the handler,
mark `Processing`, fetch timestamp and events, run the pipeline, mark
`Terminated` and notify with the completion percentage, then advance.  The
source loop terminates because `current_u64` strictly ascends to `to_u64`; to
keep the embedding kernel-computable the recursion is structural on a `fuel`
counter that callers instantiate with `to_u64 + 1 - current_u64`, which makes
the fuel-exhausted arm unreachable (every lemma carries the corresponding
bound as a hypothesis). -/
def index_block_range_loop (env : RangeEnv) (cfg : PontosConfig)
    (do_force : Bool) (to_u64 : Nat) :
    Nat → BlockStore → Nat → Except IndexerError (BlockStore × List Effect)
  | fuel, store, current_u64 =>
    if current_u64 > to_u64 then .ok (store, [])
    else
      match fuel with
      | 0 => .ok (store, [])
      | fuel + 1 =>
        if should_skip_indexing store current_u64 cfg.indexer_version do_force then
          index_block_range_loop env cfg do_force to_u64 fuel store (current_u64 + 1)
        else
          let store1 := set_block_info store current_u64 cfg.indexer_version
            cfg.indexer_identifier BlockIndexingStatus.processing
          match env.block_time current_u64 with
          | .error e => .error e
          | .ok block_ts =>
            match env.fetch_events current_u64 with
            | .error e => .error e
            | .ok blocks_events =>
              match process_all env.pipeline current_u64 block_ts blocks_events with
              | .error e => .error e
              | .ok trEvents =>
                let store2 := set_block_info store1 current_u64 cfg.indexer_version
                  cfg.indexer_identifier BlockIndexingStatus.terminated
                match index_block_range_loop env cfg do_force to_u64 fuel store2
                    (current_u64 + 1) with
                | .error e => .error e
                | .ok (storeF, trRest) =>
                  .ok (storeF,
                    .onBlockProcessing current_u64 ::
                    .setBlockInfo current_u64 cfg.indexer_version
                      cfg.indexer_identifier BlockIndexingStatus.processing ::
                    .blockTimeFetch current_u64 ::
                    .fetchEventsCall current_u64 ::
                    (trEvents ++
                      (.setBlockInfo current_u64 cfg.indexer_version
                        cfg.indexer_identifier BlockIndexingStatus.terminated ::
                       .onTerminated current_u64 (pct_of current_u64 to_u64) ::
                       trRest)))

/-- `Pontos::index_block_range` (lib.rs lines 216-291): resolve the two block
ids once, then run the ascending loop. -/
def index_block_range (env : RangeEnv) (cfg : PontosConfig)
    (from_block to_block : BlockId) (do_force : Bool) (store : BlockStore) :
    Except IndexerError (BlockStore × List Effect) :=
  match env.block_id_to_u64 from_block with
  | .error e => .error e
  | .ok current_u64 =>
    match env.block_id_to_u64 to_block with
    | .error e => .error e
    | .ok to_u64 =>
      index_block_range_loop env cfg do_force to_u64
        (to_u64 + 1 - current_u64) store current_u64

/-- Discriminator: is this effect an `on_terminated` notification for block
`n`? -/
def Effect.isOnTerminated (n : Nat) : Effect → Bool
  | .onTerminated m _ => m == n
  | _ => false

/-- Discriminator: is this effect an `events_from_tx_receipt` fetch for tx
hash `tx`? -/
def Effect.isEventsFromTx (tx : TxHash) : Effect → Bool
  | .eventsFromTx t => t == tx
  | _ => false

theorem process_one_event_shape (p : PipelineEnv) (block_number block_timestamp : Nat)
    (e : EmittedEvent) :
    ∀ eff ∈ process_one_event p block_number block_timestamp e,
      (∃ a b, eff = Effect.identifyCall a b) ∨
      (∃ e' c t, eff = Effect.registerEventCall e' c t) ∨
      (∃ te, eff = Effect.registerTokenCall te) := by
  intro eff heff
  unfold process_one_event at heff
  cases h : p.identify_contract e.from_address block_number with
  | error err =>
    rw [h] at heff
    obtain rfl := by simpa using heff
    exact Or.inl ⟨_, _, rfl⟩
  | ok ct =>
    rw [h] at heff
    dsimp only at heff
    by_cases hct : ct = ContractType.other
    · rw [if_pos hct] at heff
      obtain rfl := by simpa using heff
      exact Or.inl ⟨_, _, rfl⟩
    · rw [if_neg hct] at heff
      cases hf : p.format_and_register_event e ct block_timestamp with
      | error err =>
        rw [hf] at heff
        rcases by simpa using heff with rfl | rfl
        · exact Or.inl ⟨_, _, rfl⟩
        · exact Or.inr (Or.inl ⟨_, _, _, rfl⟩)
      | ok te =>
        rw [hf] at heff
        rcases by simpa using heff with rfl | rfl | rfl
        · exact Or.inl ⟨_, _, rfl⟩
        · exact Or.inr (Or.inl ⟨_, _, _, rfl⟩)
        · exact Or.inr (Or.inr ⟨_, rfl⟩)

/-- Pipeline traces contain only pipeline-stage effects, so any predicate that
is false on those three constructors counts zero occurrences. -/
theorem countP_process_events_eq_zero (p : PipelineEnv)
    (block_number block_timestamp : Nat) (events : List EmittedEvent)
    (tr : List Effect) (q : Effect → Bool)
    (h : process_events p block_number block_timestamp events = .ok tr)
    (h1 : ∀ a b, q (Effect.identifyCall a b) = false)
    (h2 : ∀ e c t, q (Effect.registerEventCall e c t) = false)
    (h3 : ∀ te, q (Effect.registerTokenCall te) = false) :
    tr.countP q = 0 := by
  rw [process_events_eq_flatMap] at h
  obtain rfl := (Except.ok.inj h).symm
  apply List.countP_eq_zero.2
  intro eff heff
  obtain ⟨e, -, hmem⟩ := List.mem_flatMap.1 heff
  rcases process_one_event_shape p block_number block_timestamp e eff hmem with
    ⟨a, b, rfl⟩ | ⟨e', c, t, rfl⟩ | ⟨te, rfl⟩
  · simp [h1]
  · simp [h2]
  · simp [h3]

theorem countP_process_all_eq_zero (p : PipelineEnv)
    (block_number block_timestamp : Nat) (eventLists : List (List EmittedEvent))
    (tr : List Effect) (q : Effect → Bool)
    (h : process_all p block_number block_timestamp eventLists = .ok tr)
    (h1 : ∀ a b, q (Effect.identifyCall a b) = false)
    (h2 : ∀ e c t, q (Effect.registerEventCall e c t) = false)
    (h3 : ∀ te, q (Effect.registerTokenCall te) = false) :
    tr.countP q = 0 := by
  induction eventLists generalizing tr with
  | nil =>
    obtain rfl := (Except.ok.inj h).symm
    rfl
  | cons events rest ih =>
    unfold process_all at h
    cases hpe : process_events p block_number block_timestamp events with
    | error err => rw [hpe] at h; exact absurd h (by simp)
    | ok tr1 =>
      rw [hpe] at h
      cases hpa : process_all p block_number block_timestamp rest with
      | error err => rw [hpa] at h; exact absurd h (by simp)
      | ok tr2 =>
        rw [hpa] at h
        obtain rfl := (Except.ok.inj h).symm
        rw [List.countP_append,
          countP_process_events_eq_zero p block_number block_timestamp events
            tr1 q hpe h1 h2 h3,
          ih tr2 hpa]

theorem should_skip_indexing_eq_true (store : BlockStore) (n : Nat) (v : String)
    (do_force : Bool) :
    should_skip_indexing store n v do_force = true ↔
      do_force = false ∧ ∃ entry, store n = some entry ∧
        entry.status = BlockIndexingStatus.terminated ∧
        entry.indexer_version = some v := by
  unfold should_skip_indexing
  cases do_force with
  | true => simp
  | false =>
    cases h : store n with
    | none => simp
    | some entry => simp [h, and_assoc]

theorem index_block_range_loop_unfold_zero (env : RangeEnv) (cfg : PontosConfig)
    (do_force : Bool) (to_u64 : Nat) (store : BlockStore) (current_u64 : Nat) :
    index_block_range_loop env cfg do_force to_u64 0 store current_u64 =
      .ok (store, []) := by
  rw [index_block_range_loop.eq_def]
  dsimp only
  rw [ite_self]

theorem index_block_range_loop_unfold_succ (env : RangeEnv) (cfg : PontosConfig)
    (do_force : Bool) (to_u64 fuel : Nat) (store : BlockStore) (current_u64 : Nat) :
    index_block_range_loop env cfg do_force to_u64 (fuel + 1) store current_u64 =
      (if current_u64 > to_u64 then .ok (store, [])
      else if should_skip_indexing store current_u64 cfg.indexer_version do_force then
        index_block_range_loop env cfg do_force to_u64 fuel store (current_u64 + 1)
      else
        let store1 := set_block_info store current_u64 cfg.indexer_version
          cfg.indexer_identifier BlockIndexingStatus.processing
        match env.block_time current_u64 with
        | .error e => .error e
        | .ok block_ts =>
          match env.fetch_events current_u64 with
          | .error e => .error e
          | .ok blocks_events =>
            match process_all env.pipeline current_u64 block_ts blocks_events with
            | .error e => .error e
            | .ok trEvents =>
              let store2 := set_block_info store1 current_u64 cfg.indexer_version
                cfg.indexer_identifier BlockIndexingStatus.terminated
              match index_block_range_loop env cfg do_force to_u64 fuel store2
                  (current_u64 + 1) with
              | .error e => .error e
              | .ok (storeF, trRest) =>
                .ok (storeF,
                  .onBlockProcessing current_u64 ::
                  .setBlockInfo current_u64 cfg.indexer_version
                    cfg.indexer_identifier BlockIndexingStatus.processing ::
                  .blockTimeFetch current_u64 ::
                  .fetchEventsCall current_u64 ::
                  (trEvents ++
                    (.setBlockInfo current_u64 cfg.indexer_version
                      cfg.indexer_identifier BlockIndexingStatus.terminated ::
                     .onTerminated current_u64 (pct_of current_u64 to_u64) ::
                     trRest)))) := rfl

theorem index_block_range_loop_stop (env : RangeEnv) (cfg : PontosConfig)
    (do_force : Bool) (to_u64 fuel : Nat) (store : BlockStore) (current_u64 : Nat)
    (h : current_u64 > to_u64) :
    index_block_range_loop env cfg do_force to_u64 fuel store current_u64 =
      .ok (store, []) := by
  cases fuel with
  | zero => exact index_block_range_loop_unfold_zero env cfg do_force to_u64 store current_u64
  | succ fuel =>
    rw [index_block_range_loop_unfold_succ, if_pos h]

theorem index_block_range_loop_skip (env : RangeEnv) (cfg : PontosConfig)
    (do_force : Bool) (to_u64 fuel : Nat) (store : BlockStore) (current_u64 : Nat)
    (h : ¬ current_u64 > to_u64)
    (hs : should_skip_indexing store current_u64 cfg.indexer_version do_force = true) :
    index_block_range_loop env cfg do_force to_u64 (fuel + 1) store current_u64 =
      index_block_range_loop env cfg do_force to_u64 fuel store (current_u64 + 1) := by
  rw [index_block_range_loop_unfold_succ, if_neg h, if_pos (by rw [hs])]

/-- Shorthand for the two status writes `index_block_range` performs on a
processed block. -/
def mark_processed (store : BlockStore) (cfg : PontosConfig) (n : Nat) : BlockStore :=
  set_block_info
    (set_block_info store n cfg.indexer_version cfg.indexer_identifier
      BlockIndexingStatus.processing)
    n cfg.indexer_version cfg.indexer_identifier BlockIndexingStatus.terminated

theorem index_block_range_loop_process_elim (env : RangeEnv) (cfg : PontosConfig)
    (do_force : Bool) (to_u64 fuel : Nat) (store : BlockStore) (current_u64 : Nat)
    (st' : BlockStore) (tr : List Effect)
    (h1 : ¬ current_u64 > to_u64)
    (h2 : should_skip_indexing store current_u64 cfg.indexer_version do_force = false)
    (h : index_block_range_loop env cfg do_force to_u64 (fuel + 1) store current_u64 =
      .ok (st', tr)) :
    ∃ block_ts blocks_events trEvents trRest,
      env.block_time current_u64 = .ok block_ts ∧
      env.fetch_events current_u64 = .ok blocks_events ∧
      process_all env.pipeline current_u64 block_ts blocks_events = .ok trEvents ∧
      index_block_range_loop env cfg do_force to_u64 fuel
        (mark_processed store cfg current_u64) (current_u64 + 1) = .ok (st', trRest) ∧
      tr = .onBlockProcessing current_u64 ::
           .setBlockInfo current_u64 cfg.indexer_version cfg.indexer_identifier
             BlockIndexingStatus.processing ::
           .blockTimeFetch current_u64 ::
           .fetchEventsCall current_u64 ::
           (trEvents ++
             (.setBlockInfo current_u64 cfg.indexer_version cfg.indexer_identifier
               BlockIndexingStatus.terminated ::
              .onTerminated current_u64 (pct_of current_u64 to_u64) ::
              trRest)) := by
  rw [index_block_range_loop_unfold_succ, if_neg h1] at h
  rw [if_neg (by rw [h2]; exact Bool.false_ne_true)] at h
  dsimp only at h
  cases hbt : env.block_time current_u64 with
  | error e => rw [hbt] at h; exact absurd h (by simp)
  | ok block_ts =>
    rw [hbt] at h
    dsimp only at h
    cases hfe : env.fetch_events current_u64 with
    | error e => rw [hfe] at h; exact absurd h (by simp)
    | ok blocks_events =>
      rw [hfe] at h
      dsimp only at h
      cases hpa : process_all env.pipeline current_u64 block_ts blocks_events with
      | error e => rw [hpa] at h; exact absurd h (by simp)
      | ok trEvents =>
        rw [hpa] at h
        dsimp only at h
        cases hrec : index_block_range_loop env cfg do_force to_u64 fuel
            (mark_processed store cfg current_u64) (current_u64 + 1) with
        | error e =>
          rw [show (set_block_info
              (set_block_info store current_u64 cfg.indexer_version
                cfg.indexer_identifier BlockIndexingStatus.processing)
              current_u64 cfg.indexer_version cfg.indexer_identifier
              BlockIndexingStatus.terminated) =
            mark_processed store cfg current_u64 from rfl, hrec] at h
          exact absurd h (by simp)
        | ok pr =>
          obtain ⟨storeF, trRest⟩ := pr
          rw [show (set_block_info
              (set_block_info store current_u64 cfg.indexer_version
                cfg.indexer_identifier BlockIndexingStatus.processing)
              current_u64 cfg.indexer_version cfg.indexer_identifier
              BlockIndexingStatus.terminated) =
            mark_processed store cfg current_u64 from rfl, hrec] at h
          dsimp only at h
          obtain ⟨rfl, rfl⟩ := Prod.mk.inj (Except.ok.inj h)
          exact ⟨block_ts, blocks_events, trEvents, trRest, rfl, rfl, hpa, rfl, rfl⟩

theorem index_block_range_loop_preserves_below (env : RangeEnv) (cfg : PontosConfig)
    (do_force : Bool) (to_u64 : Nat) :
    ∀ fuel current_u64 store st' tr,
      to_u64 + 1 - current_u64 ≤ fuel →
      index_block_range_loop env cfg do_force to_u64 fuel store current_u64 =
        .ok (st', tr) →
      ∀ m, m < current_u64 → st' m = store m := by
  intro fuel
  induction fuel with
  | zero =>
    intro current store st' tr hk h m hm
    have hgt : current > to_u64 := by omega
    rw [index_block_range_loop_stop env cfg do_force to_u64 0 store current hgt] at h
    obtain ⟨rfl, rfl⟩ := Prod.mk.inj (Except.ok.inj h)
    rfl
  | succ fuel ih =>
    intro current store st' tr hk h m hm
    by_cases hgt : current > to_u64
    · rw [index_block_range_loop_stop env cfg do_force to_u64 (fuel + 1) store
        current hgt] at h
      obtain ⟨rfl, rfl⟩ := Prod.mk.inj (Except.ok.inj h)
      rfl
    · cases hskip : should_skip_indexing store current cfg.indexer_version do_force with
      | true =>
        rw [index_block_range_loop_skip env cfg do_force to_u64 fuel store current
          hgt hskip] at h
        exact ih (current + 1) store st' tr (by omega) h m (by omega)
      | false =>
        obtain ⟨bts, bes, trE, trR, hbt, hfe, hpa, hrec, rfl⟩ :=
          index_block_range_loop_process_elim env cfg do_force to_u64 fuel store
            current st' tr hgt hskip h
        rw [ih (current + 1) _ st' trR (by omega) hrec m (by omega)]
        have hm1 : m ≠ current := by omega
        simp [mark_processed, set_block_info, hm1]

theorem index_block_range_loop_terminates_all (env : RangeEnv) (cfg : PontosConfig)
    (do_force : Bool) (to_u64 : Nat) :
    ∀ fuel current_u64 store st' tr,
      to_u64 + 1 - current_u64 ≤ fuel →
      index_block_range_loop env cfg do_force to_u64 fuel store current_u64 =
        .ok (st', tr) →
      ∀ n, current_u64 ≤ n → n ≤ to_u64 →
        ∃ entry, st' n = some entry ∧
          entry.status = BlockIndexingStatus.terminated ∧
          entry.indexer_version = some cfg.indexer_version := by
  intro fuel
  induction fuel with
  | zero =>
    intro current store st' tr hk h n hn1 hn2
    omega
  | succ fuel ih =>
    intro current store st' tr hk h n hn1 hn2
    by_cases hgt : current > to_u64
    · omega
    · cases hskip : should_skip_indexing store current cfg.indexer_version do_force with
      | true =>
        rw [index_block_range_loop_skip env cfg do_force to_u64 fuel store current
          hgt hskip] at h
        by_cases hn : n = current
        · subst hn
          obtain ⟨-, entry, hst, hterm, hver⟩ :=
            (should_skip_indexing_eq_true store n cfg.indexer_version do_force).1 hskip
          have hpres := index_block_range_loop_preserves_below env cfg do_force to_u64
            fuel (n + 1) store st' tr (by omega) h n (by omega)
          exact ⟨entry, hpres.trans hst, hterm, hver⟩
        · exact ih (current + 1) store st' tr (by omega) h n (by omega) hn2
      | false =>
        obtain ⟨bts, bes, trE, trR, hbt, hfe, hpa, hrec, rfl⟩ :=
          index_block_range_loop_process_elim env cfg do_force to_u64 fuel store
            current st' _ hgt hskip h
        by_cases hn : n = current
        · subst hn
          have hpres := index_block_range_loop_preserves_below env cfg do_force to_u64
            fuel (n + 1) _ st' trR (by omega) hrec n (by omega)
          refine ⟨⟨some cfg.indexer_version, some cfg.indexer_identifier,
            BlockIndexingStatus.terminated⟩, ?_, rfl, rfl⟩
          rw [hpres]
          simp [mark_processed, set_block_info]
        · exact ih (current + 1) _ st' trR (by omega) hrec n (by omega) hn2

theorem index_block_range_loop_skip_all (env : RangeEnv) (cfg : PontosConfig)
    (to_u64 : Nat) :
    ∀ fuel current_u64 store,
      to_u64 + 1 - current_u64 ≤ fuel →
      (∀ n, current_u64 ≤ n → n ≤ to_u64 →
        should_skip_indexing store n cfg.indexer_version false = true) →
      index_block_range_loop env cfg false to_u64 fuel store current_u64 =
        .ok (store, []) := by
  intro fuel
  induction fuel with
  | zero =>
    intro current store hk hall
    exact index_block_range_loop_stop env cfg false to_u64 0 store current (by omega)
  | succ fuel ih =>
    intro current store hk hall
    by_cases hgt : current > to_u64
    · exact index_block_range_loop_stop env cfg false to_u64 (fuel + 1) store
        current hgt
    · rw [index_block_range_loop_skip env cfg false to_u64 fuel store current hgt
        (hall current (le_refl current) (by omega))]
      exact ih (current + 1) store (by omega) (fun n hn1 hn2 => hall n (by omega) hn2)

/-- C10: if the resolved from-block is strictly greater than the resolved
to-block, `index_block_range` returns `Ok` immediately after the two
resolutions: the store is unchanged and the effect trace is empty (no status
writes, no observer notifications, no fetching or processing). -/
theorem index_block_range_empty_range (env : RangeEnv) (cfg : PontosConfig)
    (from_block to_block : BlockId) (do_force : Bool) (store : BlockStore)
    (from_u64 to_u64 : Nat)
    (hf : env.block_id_to_u64 from_block = .ok from_u64)
    (ht : env.block_id_to_u64 to_block = .ok to_u64)
    (hgt : from_u64 > to_u64) :
    index_block_range env cfg from_block to_block do_force store =
      .ok (store, []) := by
  unfold index_block_range
  rw [hf, ht]
  exact index_block_range_loop_stop env cfg do_force to_u64
    (to_u64 + 1 - from_u64) store from_u64 hgt

/-- Concrete chain client for witnesses: block ids resolve to their number
(symbolic tags to 0), every block has timestamp 1000 and a single relevant
event from contract 1 plus one from the irrelevant contract 2. -/
def rangeEnvW : RangeEnv where
  block_id_to_u64 := fun b =>
    match b with
    | .number n => .ok n
    | .tagLatest => .ok 0
    | .tagPending => .ok 0
  block_time := fun _ => .ok 1000
  fetch_events := fun n =>
    .ok [[⟨1, [7], [], 21⟩, ⟨2, [7], [], 22⟩, ⟨3, [7], [], 23⟩]]
  pipeline :=
    { identify_contract := fun a _ =>
        if a = 1 then .ok ContractType.erc721
        else if a = 2 then .ok ContractType.other
        else .error (.anyhow "unknown contract")
      format_and_register_event := fun e ct bts => .ok ⟨ct, bts, 1, e.tx_hash⟩
      format_and_register_token := fun _ => .ok () }

/-- Configuration used by the witnesses. -/
def cfgW : PontosConfig := ⟨"v0.1", "indexer-a"⟩

/-- C1: after `index_block_range(from, to, force)` returns `Ok`, every block
`n` of the resolved range `[from, to]` carries status `Terminated` under the
configured indexer version in the block store (written by this call, or by a
prior one when the block was skipped), and `should_skip_indexing(n, version,
force=false)` subsequently answers true. -/
theorem index_block_range_all_terminated (env : RangeEnv) (cfg : PontosConfig)
    (from_block to_block : BlockId) (do_force : Bool) (store st' : BlockStore)
    (tr : List Effect) (from_u64 to_u64 : Nat)
    (hf : env.block_id_to_u64 from_block = .ok from_u64)
    (ht : env.block_id_to_u64 to_block = .ok to_u64)
    (h : index_block_range env cfg from_block to_block do_force store =
      .ok (st', tr)) :
    ∀ n, from_u64 ≤ n → n ≤ to_u64 →
      (∃ entry, st' n = some entry ∧
        entry.status = BlockIndexingStatus.terminated ∧
        entry.indexer_version = some cfg.indexer_version) ∧
      should_skip_indexing st' n cfg.indexer_version false = true := by
  unfold index_block_range at h
  rw [hf, ht] at h
  intro n hn1 hn2
  obtain ⟨entry, hst, hterm, hver⟩ :=
    index_block_range_loop_terminates_all env cfg do_force to_u64
      (to_u64 + 1 - from_u64) from_u64 store st' tr (le_refl _) h n hn1 hn2
  refine ⟨⟨entry, hst, hterm, hver⟩, ?_⟩
  unfold should_skip_indexing
  rw [hst]
  simp [hterm, hver]

theorem index_block_range_all_terminated_witness :
    ∃ st tr,
      rangeEnvW.block_id_to_u64 (BlockId.number 1) = .ok 1 ∧
      rangeEnvW.block_id_to_u64 (BlockId.number 2) = .ok 2 ∧
      index_block_range rangeEnvW cfgW (BlockId.number 1) (BlockId.number 2) false
        (fun _ => none) = .ok (st, tr) ∧
      (∃ entry, st 2 = some entry ∧
        entry.status = BlockIndexingStatus.terminated ∧
        entry.indexer_version = some cfgW.indexer_version) ∧
      should_skip_indexing st 2 cfgW.indexer_version false = true := by
  obtain ⟨st, tr, h⟩ : ∃ st tr,
      index_block_range rangeEnvW cfgW (BlockId.number 1) (BlockId.number 2) false
        (fun _ => none) = .ok (st, tr) := ⟨_, _, rfl⟩
  exact ⟨st, tr, rfl, rfl, h,
    index_block_range_all_terminated rangeEnvW cfgW (BlockId.number 1)
      (BlockId.number 2) false (fun _ => none) st tr 1 2 rfl rfl h 2
      (by decide) (by decide)⟩

/-- C8: running `index_block_range` a second time over the same resolved range
with `force = false` performs no work at all: the second call returns `Ok`
with the block store unchanged and an empty effect trace — no status writes,
no event or timestamp fetches, no pipeline invocations, no observer
notifications. -/
theorem index_block_range_idempotent (env : RangeEnv) (cfg : PontosConfig)
    (from_block to_block : BlockId) (store st1 : BlockStore) (tr1 : List Effect)
    (from_u64 to_u64 : Nat)
    (hf : env.block_id_to_u64 from_block = .ok from_u64)
    (ht : env.block_id_to_u64 to_block = .ok to_u64)
    (h1 : index_block_range env cfg from_block to_block false store =
      .ok (st1, tr1)) :
    index_block_range env cfg from_block to_block false st1 = .ok (st1, []) := by
  unfold index_block_range at h1 ⊢
  rw [hf, ht] at h1 ⊢
  apply index_block_range_loop_skip_all env cfg to_u64 (to_u64 + 1 - from_u64)
    from_u64 st1 (le_refl _)
  intro n hn1 hn2
  obtain ⟨entry, hst, hterm, hver⟩ :=
    index_block_range_loop_terminates_all env cfg false to_u64
      (to_u64 + 1 - from_u64) from_u64 store st1 tr1 (le_refl _) h1 n hn1 hn2
  unfold should_skip_indexing
  rw [hst]
  simp [hterm, hver]

theorem index_block_range_idempotent_witness :
    ∃ st1 tr1,
      rangeEnvW.block_id_to_u64 (BlockId.number 1) = .ok 1 ∧
      rangeEnvW.block_id_to_u64 (BlockId.number 2) = .ok 2 ∧
      index_block_range rangeEnvW cfgW (BlockId.number 1) (BlockId.number 2) false
        (fun _ => none) = .ok (st1, tr1) ∧
      index_block_range rangeEnvW cfgW (BlockId.number 1) (BlockId.number 2) false
        st1 = .ok (st1, []) := by
  obtain ⟨st1, tr1, h1⟩ : ∃ st tr,
      index_block_range rangeEnvW cfgW (BlockId.number 1) (BlockId.number 2) false
        (fun _ => none) = .ok (st, tr) := ⟨_, _, rfl⟩
  exact ⟨st1, tr1, rfl, rfl, h1,
    index_block_range_idempotent rangeEnvW cfgW (BlockId.number 1)
      (BlockId.number 2) (fun _ => none) st1 tr1 1 2 rfl rfl h1⟩

theorem index_block_range_empty_range_witness :
    rangeEnvW.block_id_to_u64 (BlockId.number 5) = .ok 5 ∧
    rangeEnvW.block_id_to_u64 (BlockId.number 3) = .ok 3 ∧
    index_block_range rangeEnvW cfgW (BlockId.number 5) (BlockId.number 3) false
      (fun _ => none) = .ok ((fun _ => none), []) :=
  ⟨rfl, rfl,
    index_block_range_empty_range rangeEnvW cfgW (BlockId.number 5)
      (BlockId.number 3) false (fun _ => none) 5 3 rfl rfl (by decide)⟩

theorem index_block_range_loop_no_low_onTerminated (env : RangeEnv)
    (cfg : PontosConfig) (do_force : Bool) (to_u64 : Nat) :
    ∀ fuel current_u64 store st' tr,
      index_block_range_loop env cfg do_force to_u64 fuel store current_u64 =
        .ok (st', tr) →
      ∀ n, n < current_u64 → tr.countP (Effect.isOnTerminated n) = 0 := by
  intro fuel
  induction fuel with
  | zero =>
    intro current store st' tr h n hn
    rw [index_block_range_loop_unfold_zero] at h
    obtain ⟨rfl, rfl⟩ := Prod.mk.inj (Except.ok.inj h)
    rfl
  | succ fuel ih =>
    intro current store st' tr h n hn
    by_cases hgt : current > to_u64
    · rw [index_block_range_loop_stop env cfg do_force to_u64 (fuel + 1) store
        current hgt] at h
      obtain ⟨rfl, rfl⟩ := Prod.mk.inj (Except.ok.inj h)
      rfl
    · cases hskip : should_skip_indexing store current cfg.indexer_version do_force with
      | true =>
        rw [index_block_range_loop_skip env cfg do_force to_u64 fuel store current
          hgt hskip] at h
        exact ih (current + 1) store st' tr h n (by omega)
      | false =>
        obtain ⟨bts, bes, trE, trR, hbt, hfe, hpa, hrec, rfl⟩ :=
          index_block_range_loop_process_elim env cfg do_force to_u64 fuel store
            current st' tr hgt hskip h
        have hne : (current == n) = false := by
          simp
          omega
        have hE := countP_process_all_eq_zero env.pipeline current bts bes trE
          (Effect.isOnTerminated n) hpa (fun a b => rfl) (fun e c t => rfl)
          (fun te => rfl)
        have hR := ih (current + 1) _ st' trR hrec n (by omega)
        simp only [List.countP_cons, List.countP_append, hE, hR,
          Effect.isOnTerminated, hne]
        rfl

theorem index_block_range_loop_terminated_decomp (env : RangeEnv)
    (cfg : PontosConfig) (do_force : Bool) (to_u64 : Nat) :
    ∀ fuel current_u64 store st' tr,
      to_u64 + 1 - current_u64 ≤ fuel →
      index_block_range_loop env cfg do_force to_u64 fuel store current_u64 =
        .ok (st', tr) →
      ∀ n, current_u64 ≤ n → n ≤ to_u64 →
        should_skip_indexing store n cfg.indexer_version do_force = false →
        ∃ A B, tr = A ++
            (Effect.setBlockInfo n cfg.indexer_version cfg.indexer_identifier
              BlockIndexingStatus.terminated ::
             Effect.onTerminated n (pct_of n to_u64) :: B) ∧
          A.countP (Effect.isOnTerminated n) = 0 ∧
          B.countP (Effect.isOnTerminated n) = 0 := by
  intro fuel
  induction fuel with
  | zero =>
    intro current store st' tr hk h n hn1 hn2 hns
    omega
  | succ fuel ih =>
    intro current store st' tr hk h n hn1 hn2 hns
    by_cases hgt : current > to_u64
    · omega
    · cases hskip : should_skip_indexing store current cfg.indexer_version do_force with
      | true =>
        rw [index_block_range_loop_skip env cfg do_force to_u64 fuel store current
          hgt hskip] at h
        by_cases hn : n = current
        · subst hn
          rw [hskip] at hns
          exact absurd hns (by simp)
        · exact ih (current + 1) store st' tr (by omega) h n (by omega) hn2 hns
      | false =>
        obtain ⟨bts, bes, trE, trR, hbt, hfe, hpa, hrec, rfl⟩ :=
          index_block_range_loop_process_elim env cfg do_force to_u64 fuel store
            current st' tr hgt hskip h
        have hE := countP_process_all_eq_zero env.pipeline current bts bes trE
          (Effect.isOnTerminated n) hpa (fun a b => rfl) (fun e c t => rfl)
          (fun te => rfl)
        by_cases hn : n = current
        · subst hn
          refine ⟨Effect.onBlockProcessing n ::
            Effect.setBlockInfo n cfg.indexer_version cfg.indexer_identifier
              BlockIndexingStatus.processing ::
            Effect.blockTimeFetch n :: Effect.fetchEventsCall n :: trE, trR,
            by simp, ?_, ?_⟩
          · simp only [List.countP_cons, hE, Effect.isOnTerminated]
            rfl
          · exact index_block_range_loop_no_low_onTerminated env cfg do_force
              to_u64 fuel (n + 1) _ st' trR hrec n (by omega)
        · have hns2 : should_skip_indexing (mark_processed store cfg current) n
              cfg.indexer_version do_force = false := by
            unfold should_skip_indexing at hns ⊢
            have : mark_processed store cfg current n = store n := by
              simp [mark_processed, set_block_info, hn]
            rw [this]
            exact hns
          obtain ⟨A', B', hdec, hA', hB'⟩ :=
            ih (current + 1) _ st' trR (by omega) hrec n (by omega) hn2 hns2
          refine ⟨Effect.onBlockProcessing current ::
            Effect.setBlockInfo current cfg.indexer_version cfg.indexer_identifier
              BlockIndexingStatus.processing ::
            Effect.blockTimeFetch current :: Effect.fetchEventsCall current ::
            (trE ++
              (Effect.setBlockInfo current cfg.indexer_version cfg.indexer_identifier
                BlockIndexingStatus.terminated ::
               Effect.onTerminated current (pct_of current to_u64) :: A')), B',
            by simp [hdec], ?_, hB'⟩
          have hne : (current == n) = false := by
            simp
            omega
          simp only [List.countP_cons, List.countP_append, hE, hA',
            Effect.isOnTerminated, hne]
          rfl

/-- C9: for every block `n` that `index_block_range` actually processes
(`n` in the resolved range and not skipped), the run's effect trace contains
the `on_terminated` notification for `n` exactly once, immediately after the
`Terminated` status write for `n`, and its percentage argument is the
floating-point value `(n as f64 / to as f64) * 100`. -/
theorem index_block_range_onTerminated_once (env : RangeEnv) (cfg : PontosConfig)
    (from_block to_block : BlockId) (do_force : Bool) (store st' : BlockStore)
    (tr : List Effect) (from_u64 to_u64 n : Nat)
    (hf : env.block_id_to_u64 from_block = .ok from_u64)
    (ht : env.block_id_to_u64 to_block = .ok to_u64)
    (h : index_block_range env cfg from_block to_block do_force store =
      .ok (st', tr))
    (hn1 : from_u64 ≤ n) (hn2 : n ≤ to_u64)
    (hns : should_skip_indexing store n cfg.indexer_version do_force = false) :
    ∃ A B, tr = A ++
        (Effect.setBlockInfo n cfg.indexer_version cfg.indexer_identifier
          BlockIndexingStatus.terminated ::
         Effect.onTerminated n (pct_of n to_u64) :: B) ∧
      A.countP (Effect.isOnTerminated n) = 0 ∧
      B.countP (Effect.isOnTerminated n) = 0 := by
  unfold index_block_range at h
  rw [hf, ht] at h
  exact index_block_range_loop_terminated_decomp env cfg do_force to_u64
    (to_u64 + 1 - from_u64) from_u64 store st' tr (le_refl _) h n hn1 hn2 hns

theorem index_block_range_onTerminated_once_witness :
    ∃ st tr A B,
      rangeEnvW.block_id_to_u64 (BlockId.number 1) = .ok 1 ∧
      rangeEnvW.block_id_to_u64 (BlockId.number 2) = .ok 2 ∧
      index_block_range rangeEnvW cfgW (BlockId.number 1) (BlockId.number 2) false
        (fun _ => none) = .ok (st, tr) ∧
      should_skip_indexing (fun _ => none) 1 cfgW.indexer_version false = false ∧
      tr = A ++
        (Effect.setBlockInfo 1 cfgW.indexer_version cfgW.indexer_identifier
          BlockIndexingStatus.terminated ::
         Effect.onTerminated 1 (pct_of 1 2) :: B) ∧
      A.countP (Effect.isOnTerminated 1) = 0 ∧
      B.countP (Effect.isOnTerminated 1) = 0 := by
  obtain ⟨st, tr, h⟩ : ∃ st tr,
      index_block_range rangeEnvW cfgW (BlockId.number 1) (BlockId.number 2) false
        (fun _ => none) = .ok (st, tr) := ⟨_, _, rfl⟩
  obtain ⟨A, B, h1, h2, h3⟩ :=
    index_block_range_onTerminated_once rangeEnvW cfgW (BlockId.number 1)
      (BlockId.number 2) false (fun _ => none) st tr 1 2 1 rfl rfl h
      (by decide) (by decide) rfl
  exact ⟨st, tr, A, B, rfl, rfl, h, rfl, h1, h2, h3⟩


/-- Modelled from the spec: `PendingBlockData` (a manager type not in the
visible source) — the pending block's observed timestamp (0 = uninitialized)
and the set of transaction hashes already processed for that block. -/
structure PendingBlockData where
  timestamp : Nat
  processed : List TxHash
deriving DecidableEq, Repr

/-- Modelled from the spec: fresh cache, uninitialized timestamp, empty set. -/
def PendingBlockData.new : PendingBlockData := ⟨0, []⟩

/-- Modelled from the spec: read the cached pending timestamp. -/
def PendingBlockData.get_timestamp (c : PendingBlockData) : Nat := c.timestamp

/-- Modelled from the spec: overwrite the cached pending timestamp. -/
def PendingBlockData.set_timestamp (c : PendingBlockData) (ts : Nat) :
    PendingBlockData :=
  { c with timestamp := ts }

/-- Modelled from the spec: clear the processed-hash set. -/
def PendingBlockData.clear_tx_hashes (c : PendingBlockData) : PendingBlockData :=
  { c with processed := [] }

/-- Modelled from the spec: membership in the processed-hash set. -/
def PendingBlockData.is_tx_processed (c : PendingBlockData) (tx : TxHash) : Bool :=
  decide (tx ∈ c.processed)

/-- Modelled from the spec: insert a hash into the processed-hash set. -/
def PendingBlockData.add_tx_as_processed (c : PendingBlockData) (tx : TxHash) :
    PendingBlockData :=
  if tx ∈ c.processed then c else { c with processed := tx :: c.processed }

/-- Chain-client oracles used by one iteration of `index_pending`:
`block_txs_hashes(Pending)`, `block_txs_hashes(Latest)`, `block_number()` and
the per-transaction receipt/event fetch, plus the pipeline oracles. -/
structure PendingEnv where
  pending_block : Except IndexerError (Nat × List TxHash)
  latest_block : Except IndexerError (Nat × List TxHash)
  block_number : Except IndexerError Nat
  events_from_tx_receipt : TxHash → Except IndexerError (List EmittedEvent)
  pipeline : PipelineEnv

/-- The `for tx_hash in txs` loop over the sealed latest block's transactions
(lib.rs lines 140-162): skip processed hashes; on a successful fetch run the
pipeline against `(block_number, latest_ts)` and mark the hash processed; a
fetch failure on the latest block is returned as an error (`return Err`). -/
def latest_txs_loop (env : PendingEnv) (block_number latest_ts : Nat)
    (cache : PendingBlockData) :
    List TxHash → Except IndexerError (PendingBlockData × List Effect)
  | [] => .ok (cache, [])
  | tx_hash :: rest =>
    if cache.is_tx_processed tx_hash then
      latest_txs_loop env block_number latest_ts cache rest
    else
      match env.events_from_tx_receipt tx_hash with
      | .ok events =>
        match process_events env.pipeline block_number latest_ts events with
        | .error e => .error e
        | .ok tr =>
          match latest_txs_loop env block_number latest_ts
              (cache.add_tx_as_processed tx_hash) rest with
          | .error e => .error e
          | .ok (c, tr') => .ok (c, .eventsFromTx tx_hash :: (tr ++ tr'))
      | .error e => .error e

/-- The `for tx_hash in txs` loop over the pending block's transactions
(lib.rs lines 182-203): skip processed hashes; on a successful fetch run the
pipeline against `(block_number, cache.get_timestamp())` and mark the hash
processed; a fetch failure is logged and skipped (`continue`), leaving the
hash unprocessed for retry on a later tick. -/
def pending_txs_loop (env : PendingEnv) (block_number : Nat)
    (cache : PendingBlockData) :
    List TxHash → Except IndexerError (PendingBlockData × List Effect)
  | [] => .ok (cache, [])
  | tx_hash :: rest =>
    if cache.is_tx_processed tx_hash then
      pending_txs_loop env block_number cache rest
    else
      match env.events_from_tx_receipt tx_hash with
      | .ok events =>
        match process_events env.pipeline block_number cache.get_timestamp events with
        | .error e => .error e
        | .ok tr =>
          match pending_txs_loop env block_number
              (cache.add_tx_as_processed tx_hash) rest with
          | .error e => .error e
          | .ok (c, tr') => .ok (c, .eventsFromTx tx_hash :: (tr ++ tr'))
      | .error _ =>
        match pending_txs_loop env block_number cache rest with
        | .error e => .error e
        | .ok (c, tr') => .ok (c, .eventsFromTx tx_hash :: tr')

/-- One iteration of the `index_pending` loop (lib.rs lines 88-207), from the
top of the loop to the sleep: poll the pending block; adopt its timestamp if
the cache is uninitialized; on a timestamp change resolve the latest block and
either (timestamp mismatch) clean the stale status record and reset the cache,
ending the tick, or (match) drain the latest block's unprocessed transactions,
persist the pending-to-latest transition, reset the cache to the new pending
timestamp, and fall through to pending processing in the same tick. -/
def index_pending_tick (env : PendingEnv) (store : BlockStore)
    (cache : PendingBlockData) :
    Except IndexerError (BlockStore × PendingBlockData × List Effect) :=
  match env.pending_block with
  | .error e => .error e
  | .ok (ts, txs) =>
    let block_number := ts
    let cache1 := if cache.get_timestamp = 0 then cache.set_timestamp ts else cache
    if ts ≠ cache1.get_timestamp then
      match env.block_number with
      | .error e => .error e
      | .ok bn =>
        match env.latest_block with
        | .error e => .error e
        | .ok (latest_ts, latest_txs) =>
          if latest_ts ≠ cache1.get_timestamp then
            .ok (clean_block store cache1.get_timestamp,
                 (cache1.set_timestamp 0).clear_tx_hashes,
                 [.cleanBlockCall cache1.get_timestamp])
          else
            match latest_txs_loop env bn latest_ts cache1 latest_txs with
            | .error e => .error e
            | .ok (cache2, tr1) =>
              let store1 := update_last_pending_block store bn latest_ts
              let cache3 := (cache2.set_timestamp ts).clear_tx_hashes
              match pending_txs_loop env ts cache3 txs with
              | .error e => .error e
              | .ok (cache4, tr2) =>
                .ok (store1, cache4,
                  tr1 ++ (.updateLastPendingBlockCall bn latest_ts :: tr2))
    else
      match pending_txs_loop env block_number cache1 txs with
      | .error e => .error e
      | .ok (cache2, tr2) => .ok (store, cache2, tr2)

/-- The first `n` iterations of `index_pending` (lib.rs lines 87-208).  The
source loop is unbounded and exits only by propagating an error; this runner
chains `index_pending_tick` for `n` ticks, the environment stream supplying
each tick's chain observations. -/
def index_pending_run (envs : Nat → PendingEnv) (store : BlockStore)
    (cache : PendingBlockData) :
    Nat → Except IndexerError (BlockStore × PendingBlockData × List Effect)
  | 0 => .ok (store, cache, [])
  | n + 1 =>
    match index_pending_tick (envs 0) store cache with
    | .error e => .error e
    | .ok (store1, cache1, tr) =>
      match index_pending_run (fun k => envs (k + 1)) store1 cache1 n with
      | .error e => .error e
      | .ok (store2, cache2, tr') => .ok (store2, cache2, tr ++ tr')


theorem mem_add_tx_as_processed (c : PendingBlockData) (t h : TxHash) :
    h ∈ (c.add_tx_as_processed t).processed ↔ h = t ∨ h ∈ c.processed := by
  unfold PendingBlockData.add_tx_as_processed
  by_cases ht : t ∈ c.processed
  · rw [if_pos ht]
    constructor
    · exact Or.inr
    · rintro (rfl | hh)
      · exact ht
      · exact hh
  · rw [if_neg ht]
    simp

theorem timestamp_add_tx_as_processed (c : PendingBlockData) (t : TxHash) :
    (c.add_tx_as_processed t).timestamp = c.timestamp := by
  unfold PendingBlockData.add_tx_as_processed
  split <;> rfl

theorem pending_txs_loop_nil (env : PendingEnv) (block_number : Nat)
    (cache : PendingBlockData) :
    pending_txs_loop env block_number cache [] = .ok (cache, []) := rfl

theorem pending_txs_loop_cons (env : PendingEnv) (block_number : Nat)
    (cache : PendingBlockData) (tx_hash : TxHash) (rest : List TxHash) :
    pending_txs_loop env block_number cache (tx_hash :: rest) =
      (if cache.is_tx_processed tx_hash then
        pending_txs_loop env block_number cache rest
      else
        match env.events_from_tx_receipt tx_hash with
        | .ok events =>
          match process_events env.pipeline block_number cache.get_timestamp events with
          | .error e => .error e
          | .ok tr =>
            match pending_txs_loop env block_number
                (cache.add_tx_as_processed tx_hash) rest with
            | .error e => .error e
            | .ok (c, tr') => .ok (c, .eventsFromTx tx_hash :: (tr ++ tr'))
        | .error _ =>
          match pending_txs_loop env block_number cache rest with
          | .error e => .error e
          | .ok (c, tr') => .ok (c, .eventsFromTx tx_hash :: tr')) := rfl

theorem latest_txs_loop_nil (env : PendingEnv) (block_number latest_ts : Nat)
    (cache : PendingBlockData) :
    latest_txs_loop env block_number latest_ts cache [] = .ok (cache, []) := rfl

theorem latest_txs_loop_cons (env : PendingEnv) (block_number latest_ts : Nat)
    (cache : PendingBlockData) (tx_hash : TxHash) (rest : List TxHash) :
    latest_txs_loop env block_number latest_ts cache (tx_hash :: rest) =
      (if cache.is_tx_processed tx_hash then
        latest_txs_loop env block_number latest_ts cache rest
      else
        match env.events_from_tx_receipt tx_hash with
        | .ok events =>
          match process_events env.pipeline block_number latest_ts events with
          | .error e => .error e
          | .ok tr =>
            match latest_txs_loop env block_number latest_ts
                (cache.add_tx_as_processed tx_hash) rest with
            | .error e => .error e
            | .ok (c, tr') => .ok (c, .eventsFromTx tx_hash :: (tr ++ tr'))
        | .error e => .error e) := rfl

theorem pending_txs_loop_ok (env : PendingEnv) (block_number : Nat) :
    ∀ txs cache, ∃ c tr,
      pending_txs_loop env block_number cache txs = .ok (c, tr) := by
  intro txs
  induction txs with
  | nil => intro cache; exact ⟨cache, [], rfl⟩
  | cons t rest ih =>
    intro cache
    rw [pending_txs_loop_cons]
    by_cases hp : cache.is_tx_processed t
    · rw [if_pos hp]
      exact ih cache
    · rw [if_neg hp]
      cases hf : env.events_from_tx_receipt t with
      | ok events =>
        dsimp only
        rw [process_events_eq_flatMap]
        obtain ⟨c, tr', hrec⟩ := ih (cache.add_tx_as_processed t)
        rw [hrec]
        exact ⟨_, _, rfl⟩
      | error e =>
        dsimp only
        obtain ⟨c, tr', hrec⟩ := ih cache
        rw [hrec]
        exact ⟨_, _, rfl⟩


theorem pending_txs_loop_state (env : PendingEnv) (block_number : Nat) :
    ∀ txs cache c tr,
      pending_txs_loop env block_number cache txs = .ok (c, tr) →
      c.timestamp = cache.timestamp ∧
      (∀ x, x ∈ c.processed → x ∈ cache.processed ∨ x ∈ txs) := by
  intro txs
  induction txs with
  | nil =>
    intro cache c tr h
    rw [pending_txs_loop_nil] at h
    obtain ⟨rfl, rfl⟩ := Prod.mk.inj (Except.ok.inj h)
    exact ⟨rfl, fun x hx => Or.inl hx⟩
  | cons t rest ih =>
    intro cache c tr h
    rw [pending_txs_loop_cons] at h
    by_cases hp : cache.is_tx_processed t
    · rw [if_pos hp] at h
      obtain ⟨h1, h2⟩ := ih cache c tr h
      exact ⟨h1, fun x hx => (h2 x hx).imp id (List.mem_cons_of_mem t)⟩
    · rw [if_neg hp] at h
      cases hf : env.events_from_tx_receipt t with
      | ok events =>
        rw [hf] at h
        dsimp only at h
        rw [process_events_eq_flatMap] at h
        cases hrec : pending_txs_loop env block_number
            (cache.add_tx_as_processed t) rest with
        | error e => rw [hrec] at h; exact absurd h (by simp)
        | ok pr =>
          obtain ⟨c1, tr1⟩ := pr
          rw [hrec] at h
          dsimp only at h
          obtain ⟨rfl, rfl⟩ := Prod.mk.inj (Except.ok.inj h)
          obtain ⟨h1, h2⟩ := ih _ c1 tr1 hrec
          refine ⟨h1.trans (timestamp_add_tx_as_processed cache t), fun x hx => ?_⟩
          rcases h2 x hx with hx1 | hx1
          · rcases (mem_add_tx_as_processed cache t x).1 hx1 with rfl | hx2
            · exact Or.inr (List.mem_cons_self x rest)
            · exact Or.inl hx2
          · exact Or.inr (List.mem_cons_of_mem t hx1)
      | error e =>
        rw [hf] at h
        dsimp only at h
        cases hrec : pending_txs_loop env block_number cache rest with
        | error e1 => rw [hrec] at h; exact absurd h (by simp)
        | ok pr =>
          obtain ⟨c1, tr1⟩ := pr
          rw [hrec] at h
          dsimp only at h
          obtain ⟨rfl, rfl⟩ := Prod.mk.inj (Except.ok.inj h)
          obtain ⟨h1, h2⟩ := ih cache c1 tr1 hrec
          exact ⟨h1, fun x hx => (h2 x hx).imp id (List.mem_cons_of_mem t)⟩

theorem latest_txs_loop_state (env : PendingEnv) (block_number latest_ts : Nat) :
    ∀ txs cache c tr,
      latest_txs_loop env block_number latest_ts cache txs = .ok (c, tr) →
      c.timestamp = cache.timestamp ∧
      (∀ x, x ∈ c.processed → x ∈ cache.processed ∨ x ∈ txs) := by
  intro txs
  induction txs with
  | nil =>
    intro cache c tr h
    rw [latest_txs_loop_nil] at h
    obtain ⟨rfl, rfl⟩ := Prod.mk.inj (Except.ok.inj h)
    exact ⟨rfl, fun x hx => Or.inl hx⟩
  | cons t rest ih =>
    intro cache c tr h
    rw [latest_txs_loop_cons] at h
    by_cases hp : cache.is_tx_processed t
    · rw [if_pos hp] at h
      obtain ⟨h1, h2⟩ := ih cache c tr h
      exact ⟨h1, fun x hx => (h2 x hx).imp id (List.mem_cons_of_mem t)⟩
    · rw [if_neg hp] at h
      cases hf : env.events_from_tx_receipt t with
      | ok events =>
        rw [hf] at h
        dsimp only at h
        rw [process_events_eq_flatMap] at h
        cases hrec : latest_txs_loop env block_number latest_ts
            (cache.add_tx_as_processed t) rest with
        | error e => rw [hrec] at h; exact absurd h (by simp)
        | ok pr =>
          obtain ⟨c1, tr1⟩ := pr
          rw [hrec] at h
          dsimp only at h
          obtain ⟨rfl, rfl⟩ := Prod.mk.inj (Except.ok.inj h)
          obtain ⟨h1, h2⟩ := ih _ c1 tr1 hrec
          refine ⟨h1.trans (timestamp_add_tx_as_processed cache t), fun x hx => ?_⟩
          rcases h2 x hx with hx1 | hx1
          · rcases (mem_add_tx_as_processed cache t x).1 hx1 with rfl | hx2
            · exact Or.inr (List.mem_cons_self x rest)
            · exact Or.inl hx2
          · exact Or.inr (List.mem_cons_of_mem t hx1)
      | error e =>
        rw [hf] at h
        exact absurd h (by simp)

theorem pending_txs_loop_err_not_added (env : PendingEnv) (block_number : Nat)
    (tx : TxHash) (e : IndexerError)
    (herr : env.events_from_tx_receipt tx = .error e) :
    ∀ txs cache c tr,
      pending_txs_loop env block_number cache txs = .ok (c, tr) →
      tx ∉ cache.processed → tx ∉ c.processed := by
  intro txs
  induction txs with
  | nil =>
    intro cache c tr h hn
    rw [pending_txs_loop_nil] at h
    obtain ⟨rfl, rfl⟩ := Prod.mk.inj (Except.ok.inj h)
    exact hn
  | cons t rest ih =>
    intro cache c tr h hn
    rw [pending_txs_loop_cons] at h
    by_cases hp : cache.is_tx_processed t
    · rw [if_pos hp] at h
      exact ih cache c tr h hn
    · rw [if_neg hp] at h
      cases hf : env.events_from_tx_receipt t with
      | ok events =>
        have hne : tx ≠ t := by
          rintro rfl
          rw [herr] at hf
          exact absurd hf (by simp)
        rw [hf] at h
        dsimp only at h
        rw [process_events_eq_flatMap] at h
        cases hrec : pending_txs_loop env block_number
            (cache.add_tx_as_processed t) rest with
        | error e1 => rw [hrec] at h; exact absurd h (by simp)
        | ok pr =>
          obtain ⟨c1, tr1⟩ := pr
          rw [hrec] at h
          dsimp only at h
          obtain ⟨rfl, rfl⟩ := Prod.mk.inj (Except.ok.inj h)
          refine ih _ c1 tr1 hrec ?_
          rw [mem_add_tx_as_processed]
          rintro (rfl | hx)
          · exact hne rfl
          · exact hn hx
      | error e1 =>
        rw [hf] at h
        dsimp only at h
        cases hrec : pending_txs_loop env block_number cache rest with
        | error e2 => rw [hrec] at h; exact absurd h (by simp)
        | ok pr =>
          obtain ⟨c1, tr1⟩ := pr
          rw [hrec] at h
          dsimp only at h
          obtain ⟨rfl, rfl⟩ := Prod.mk.inj (Except.ok.inj h)
          exact ih cache c1 tr1 hrec hn

theorem latest_txs_loop_ok_fetch (env : PendingEnv) (block_number latest_ts : Nat) :
    ∀ txs cache c tr,
      latest_txs_loop env block_number latest_ts cache txs = .ok (c, tr) →
      ∀ tx, tx ∈ txs → ∀ e, env.events_from_tx_receipt tx = .error e →
        tx ∈ cache.processed := by
  intro txs
  induction txs with
  | nil =>
    intro cache c tr h tx htx
    exact absurd htx (List.not_mem_nil tx)
  | cons t rest ih =>
    intro cache c tr h tx htx e herr
    rw [latest_txs_loop_cons] at h
    by_cases hp : cache.is_tx_processed t
    · rw [if_pos hp] at h
      rcases List.mem_cons.1 htx with rfl | htx1
      · simpa [PendingBlockData.is_tx_processed] using hp
      · exact ih cache c tr h tx htx1 e herr
    · rw [if_neg hp] at h
      cases hf : env.events_from_tx_receipt t with
      | ok events =>
        have hne : tx ≠ t := by
          rintro rfl
          rw [herr] at hf
          exact absurd hf (by simp)
        rcases List.mem_cons.1 htx with rfl | htx1
        · exact absurd rfl hne
        · rw [hf] at h
          dsimp only at h
          rw [process_events_eq_flatMap] at h
          cases hrec : latest_txs_loop env block_number latest_ts
              (cache.add_tx_as_processed t) rest with
          | error e1 => rw [hrec] at h; exact absurd h (by simp)
          | ok pr =>
            obtain ⟨c1, tr1⟩ := pr
            rw [hrec] at h
            have hmem := ih _ c1 tr1 hrec tx htx1 e herr
            rcases (mem_add_tx_as_processed cache t tx).1 hmem with rfl | hx
            · exact absurd rfl hne
            · exact hx
      | error e1 =>
        rw [hf] at h
        exact absurd h (by simp)

theorem latest_txs_loop_err (env : PendingEnv) (block_number latest_ts : Nat)
    (txs : List TxHash) (cache : PendingBlockData) (tx : TxHash) (e : IndexerError)
    (htx : tx ∈ txs) (hnp : tx ∉ cache.processed)
    (herr : env.events_from_tx_receipt tx = .error e) :
    ∃ e1, latest_txs_loop env block_number latest_ts cache txs = .error e1 := by
  cases hr : latest_txs_loop env block_number latest_ts cache txs with
  | ok pr =>
    obtain ⟨c, tr⟩ := pr
    exact absurd (latest_txs_loop_ok_fetch env block_number latest_ts txs cache
      c tr hr tx htx e herr) hnp
  | error e1 => exact ⟨e1, rfl⟩


theorem latest_txs_loop_count (env : PendingEnv) (block_number latest_ts : Nat) :
    ∀ txs cache c tr,
      latest_txs_loop env block_number latest_ts cache txs = .ok (c, tr) →
      ∀ x, tr.countP (Effect.isEventsFromTx x) =
        if x ∈ txs ∧ x ∉ cache.processed then 1 else 0 := by
  intro txs
  induction txs with
  | nil =>
    intro cache c tr h x
    rw [latest_txs_loop_nil] at h
    obtain ⟨rfl, rfl⟩ := Prod.mk.inj (Except.ok.inj h)
    rw [if_neg (by simp)]
    rfl
  | cons t rest ih =>
    intro cache c tr h x
    rw [latest_txs_loop_cons] at h
    by_cases hp : cache.is_tx_processed t
    · rw [if_pos hp] at h
      have ht : t ∈ cache.processed := by
        simpa [PendingBlockData.is_tx_processed] using hp
      rw [ih cache c tr h x]
      by_cases hx : x = t
      · subst hx
        rw [if_neg (fun hc => hc.2 ht), if_neg (fun hc => hc.2 ht)]
      · have hiff : (x ∈ rest ∧ x ∉ cache.processed) ↔
            (x ∈ t :: rest ∧ x ∉ cache.processed) := by
          rw [List.mem_cons]
          constructor
          · rintro ⟨hm, hn⟩
            exact ⟨Or.inr hm, hn⟩
          · rintro ⟨hm, hn⟩
            rcases hm with rfl | hm1
            · exact absurd ht hn
            · exact ⟨hm1, hn⟩
        rw [if_congr hiff rfl rfl]
    · rw [if_neg hp] at h
      have htn : t ∉ cache.processed := by
        simpa [PendingBlockData.is_tx_processed] using hp
      cases hf : env.events_from_tx_receipt t with
      | error e => rw [hf] at h; exact absurd h (by simp)
      | ok events =>
        rw [hf] at h
        dsimp only at h
        rw [process_events_eq_flatMap] at h
        cases hrec : latest_txs_loop env block_number latest_ts
            (cache.add_tx_as_processed t) rest with
        | error e => rw [hrec] at h; exact absurd h (by simp)
        | ok pr =>
          obtain ⟨c1, tr1⟩ := pr
          rw [hrec] at h
          dsimp only at h
          obtain ⟨rfl, rfl⟩ := Prod.mk.inj (Except.ok.inj h)
          have hpe : (events.flatMap
              (process_one_event env.pipeline block_number latest_ts)).countP
              (Effect.isEventsFromTx x) = 0 :=
            countP_process_events_eq_zero env.pipeline block_number latest_ts
              events _ (Effect.isEventsFromTx x)
              (process_events_eq_flatMap env.pipeline block_number latest_ts events)
              (fun a b => rfl) (fun e2 c2 t2 => rfl) (fun te => rfl)
          rw [List.countP_cons, List.countP_append, hpe, ih _ c1 tr1 hrec x]
          by_cases hx : x = t
          · subst hx
            have h1 : ¬ (x ∈ rest ∧ x ∉ (cache.add_tx_as_processed x).processed) := by
              rintro ⟨-, hn⟩
              exact hn ((mem_add_tx_as_processed cache x x).2 (Or.inl rfl))
            have h2 : x ∈ x :: rest ∧ x ∉ cache.processed :=
              ⟨List.mem_cons_self x rest, htn⟩
            rw [if_neg h1, if_pos h2, if_pos (by simp [Effect.isEventsFromTx])]
          · have h1 : (x ∈ rest ∧ x ∉ (cache.add_tx_as_processed t).processed) ↔
                (x ∈ t :: rest ∧ x ∉ cache.processed) := by
              constructor
              · rintro ⟨hm, hn⟩
                refine ⟨List.mem_cons_of_mem t hm, fun h2 => ?_⟩
                exact hn ((mem_add_tx_as_processed cache t x).2 (Or.inr h2))
              · rintro ⟨hm, hn⟩
                rcases List.mem_cons.1 hm with rfl | hm1
                · exact absurd rfl hx
                · refine ⟨hm1, fun h2 => ?_⟩
                  rcases (mem_add_tx_as_processed cache t x).1 h2 with rfl | h3
                  · exact hx rfl
                  · exact hn h3
            have hb : Effect.isEventsFromTx x (Effect.eventsFromTx t) = false := by
              simp [Effect.isEventsFromTx]
              exact fun h2 => hx h2.symm
            rw [if_congr h1 rfl rfl, hb]
            simp


/-- C3: when the pending timestamp changed but the re-fetched latest block's
timestamp does not match the cached pending timestamp, the tick purges the
stale block-status record for the cached timestamp via `clean_block`, resets
the cache to timestamp 0 with a cleared hash set, and ends the iteration
(`continue`) having processed no transaction: its whole trace is the single
`clean_block` call. -/
theorem index_pending_desync_invalidates (env : PendingEnv) (store : BlockStore)
    (cache : PendingBlockData) (ts bn latest_ts : Nat)
    (txs latest_txs : List TxHash)
    (hp : env.pending_block = .ok (ts, txs))
    (h0 : cache.get_timestamp ≠ 0)
    (hts : ts ≠ cache.get_timestamp)
    (hbn : env.block_number = .ok bn)
    (hl : env.latest_block = .ok (latest_ts, latest_txs))
    (hlts : latest_ts ≠ cache.get_timestamp) :
    index_pending_tick env store cache =
      .ok (clean_block store cache.get_timestamp,
           ⟨0, []⟩,
           [Effect.cleanBlockCall cache.get_timestamp]) := by
  unfold index_pending_tick
  rw [hp]
  dsimp only
  rw [if_neg h0, if_pos hts, hbn]
  dsimp only
  rw [hl]
  dsimp only
  rw [if_pos hlts]
  exact rfl

/-- Pending-mode environment for the desync witness: the pending timestamp
moved from the cached 50 to 60, while the latest block reports 55. -/
def pendEnvDesyncW : PendingEnv where
  pending_block := .ok (60, [1])
  latest_block := .ok (55, [2])
  block_number := .ok 7
  events_from_tx_receipt := fun _ => .ok []
  pipeline := rangeEnvW.pipeline

theorem index_pending_desync_invalidates_witness :
    pendEnvDesyncW.pending_block = .ok (60, [1]) ∧
    (⟨50, [9]⟩ : PendingBlockData).get_timestamp ≠ 0 ∧
    pendEnvDesyncW.latest_block = .ok (55, [2]) ∧
    index_pending_tick pendEnvDesyncW (fun _ => none) ⟨50, [9]⟩ =
      .ok (clean_block (fun _ => none) 50, ⟨0, []⟩, [Effect.cleanBlockCall 50]) :=
  ⟨rfl, by decide, rfl,
    index_pending_desync_invalidates pendEnvDesyncW (fun _ => none) ⟨50, [9]⟩
      60 7 55 [1] [2] rfl (by decide) (by decide) rfl rfl (by decide)⟩

/-- C2: pending-tail rollover — the pending timestamp changed and the latest
block's timestamp equals the cached one.  Given a successful drain of the
latest block's transactions, the tick fetches each latest-block transaction
not yet in the processed set exactly once, persists the Terminated transition
for the resolved latest block number via `update_last_pending_block`, resets
the cache to the newly observed pending timestamp with a cleared hash set, and
continues in the same tick by running the pending loop on that reset cache
with the freshly observed transaction list. -/
theorem index_pending_rollover (env : PendingEnv) (store : BlockStore)
    (cache cache2 : PendingBlockData) (ts bn : Nat)
    (txs latest_txs : List TxHash) (tr1 : List Effect)
    (hp : env.pending_block = .ok (ts, txs))
    (h0 : cache.get_timestamp ≠ 0)
    (hts : ts ≠ cache.get_timestamp)
    (hbn : env.block_number = .ok bn)
    (hl : env.latest_block = .ok (cache.get_timestamp, latest_txs))
    (hloop : latest_txs_loop env bn cache.get_timestamp cache latest_txs =
      .ok (cache2, tr1)) :
    ∃ cache4 tr2,
      pending_txs_loop env ts ⟨ts, []⟩ txs = .ok (cache4, tr2) ∧
      index_pending_tick env store cache =
        .ok (update_last_pending_block store bn cache.get_timestamp, cache4,
             tr1 ++ (Effect.updateLastPendingBlockCall bn cache.get_timestamp :: tr2)) ∧
      update_last_pending_block store bn cache.get_timestamp bn =
        some ⟨none, none, BlockIndexingStatus.terminated⟩ ∧
      (∀ x, tr1.countP (Effect.isEventsFromTx x) =
        if x ∈ latest_txs ∧ x ∉ cache.processed then 1 else 0) := by
  obtain ⟨cache4, tr2, hpend⟩ := pending_txs_loop_ok env ts txs ⟨ts, []⟩
  refine ⟨cache4, tr2, hpend, ?_, ?_, ?_⟩
  · unfold index_pending_tick
    rw [hp]
    dsimp only
    rw [if_neg h0, if_pos hts, hbn]
    dsimp only
    rw [hl]
    dsimp only
    rw [if_neg (show ¬ cache.get_timestamp ≠ cache.get_timestamp from
      fun hc => hc rfl)]
    rw [hloop]
    dsimp only
    have hc3 : (cache2.set_timestamp ts).clear_tx_hashes =
        (⟨ts, []⟩ : PendingBlockData) := rfl
    rw [hc3, hpend]
  · simp [update_last_pending_block]
  · intro x
    exact latest_txs_loop_count env bn cache.get_timestamp latest_txs cache
      cache2 tr1 hloop x

/-- Pending-mode environment for the rollover witness: the pending timestamp
moved from the cached 100 to 200, the latest block (number 42) reports
timestamp 100 with transactions 5 (already processed) and 6. -/
def pendEnvRollW : PendingEnv where
  pending_block := .ok (200, [11])
  latest_block := .ok (100, [5, 6])
  block_number := .ok 42
  events_from_tx_receipt := fun _ => .ok []
  pipeline := rangeEnvW.pipeline

theorem index_pending_rollover_witness :
    ∃ cache2 tr1 cache4 tr2,
      pendEnvRollW.pending_block = .ok (200, [11]) ∧
      latest_txs_loop pendEnvRollW 42 100 ⟨100, [5]⟩ [5, 6] = .ok (cache2, tr1) ∧
      pending_txs_loop pendEnvRollW 200 ⟨200, []⟩ [11] = .ok (cache4, tr2) ∧
      index_pending_tick pendEnvRollW (fun _ => none) ⟨100, [5]⟩ =
        .ok (update_last_pending_block (fun _ => none) 42 100, cache4,
             tr1 ++ (Effect.updateLastPendingBlockCall 42 100 :: tr2)) ∧
      tr1.countP (Effect.isEventsFromTx 6) = 1 ∧
      tr1.countP (Effect.isEventsFromTx 5) = 0 := by
  obtain ⟨cache2, tr1, hloop⟩ : ∃ c t,
      latest_txs_loop pendEnvRollW 42 100 ⟨100, [5]⟩ [5, 6] = .ok (c, t) :=
    ⟨_, _, rfl⟩
  obtain ⟨cache4, tr2, hpend, htick, hstore, hcount⟩ :=
    index_pending_rollover pendEnvRollW (fun _ => none) ⟨100, [5]⟩ cache2 200 42
      [11] [5, 6] tr1 rfl (by decide) (by decide) rfl rfl hloop
  refine ⟨cache2, tr1, cache4, tr2, rfl, hloop, hpend, htick, ?_, ?_⟩
  · rw [hcount 6]
    rw [if_pos ⟨by decide, by decide⟩]
  · rw [hcount 5]
    rw [if_neg (fun hc => hc.2 (by decide))]


/-- C4: asymmetric handling of `events_from_tx_receipt` failures in
`index_pending`.  First conjunct: a failing fetch for a transaction of the
currently pending block is swallowed — the tick still returns `Ok`, the block
store is untouched, and the failing hash is not added to the processed set, so
it is retried on a later tick.  Second conjunct: a failing fetch for an
unprocessed transaction of the sealed latest block during rollover makes the
tick — and with it any `index_pending` run reaching that tick — return the
propagated error, terminating the loop. -/
theorem index_pending_fetch_failure_asymmetry :
    (∀ (env : PendingEnv) (store : BlockStore) (cache : PendingBlockData)
        (ts : Nat) (txs : List TxHash) (tx : TxHash) (e : IndexerError),
        env.pending_block = .ok (ts, txs) →
        cache.get_timestamp = ts →
        tx ∈ txs →
        tx ∉ cache.processed →
        env.events_from_tx_receipt tx = .error e →
        ∃ cache2 tr, index_pending_tick env store cache = .ok (store, cache2, tr) ∧
          tx ∉ cache2.processed) ∧
    (∀ (env : PendingEnv) (store : BlockStore) (cache : PendingBlockData)
        (ts bn : Nat) (txs latest_txs : List TxHash) (tx : TxHash) (e : IndexerError),
        env.pending_block = .ok (ts, txs) →
        cache.get_timestamp ≠ 0 →
        ts ≠ cache.get_timestamp →
        env.block_number = .ok bn →
        env.latest_block = .ok (cache.get_timestamp, latest_txs) →
        tx ∈ latest_txs →
        tx ∉ cache.processed →
        env.events_from_tx_receipt tx = .error e →
        (∃ e1, index_pending_tick env store cache = .error e1) ∧
        (∀ n, ∃ e2, index_pending_run (fun _ => env) store cache (n + 1) = .error e2)) := by
  constructor
  · intro env store cache ts txs tx e hp hsteady htx hnp herr
    unfold index_pending_tick
    rw [hp]
    dsimp only
    by_cases h0 : cache.get_timestamp = 0
    · rw [if_pos h0]
      have hts0 : ts = 0 := by rw [← hsteady, h0]
      have hc1 : (cache.set_timestamp ts).get_timestamp = ts := rfl
      rw [if_neg (show ¬ ts ≠ (cache.set_timestamp ts).get_timestamp from
        fun hc => hc hc1.symm)]
      obtain ⟨cache2, tr2, hpend⟩ :=
        pending_txs_loop_ok env ts txs (cache.set_timestamp ts)
      rw [hpend]
      refine ⟨cache2, tr2, rfl, ?_⟩
      exact pending_txs_loop_err_not_added env ts tx e herr txs
        (cache.set_timestamp ts) cache2 tr2 hpend hnp
    · rw [if_neg h0]
      rw [if_neg (show ¬ ts ≠ cache.get_timestamp from fun hc => hc hsteady.symm)]
      obtain ⟨cache2, tr2, hpend⟩ := pending_txs_loop_ok env ts txs cache
      rw [hpend]
      refine ⟨cache2, tr2, rfl, ?_⟩
      exact pending_txs_loop_err_not_added env ts tx e herr txs cache cache2
        tr2 hpend hnp
  · intro env store cache ts bn txs latest_txs tx e hp h0 hts hbn hl htx hnp herr
    obtain ⟨e1, hloopf⟩ := latest_txs_loop_err env bn cache.get_timestamp
      latest_txs cache tx e htx hnp herr
    have htick : index_pending_tick env store cache = .error e1 := by
      unfold index_pending_tick
      rw [hp]
      dsimp only
      rw [if_neg h0, if_pos hts, hbn]
      dsimp only
      rw [hl]
      dsimp only
      rw [if_neg (show ¬ cache.get_timestamp ≠ cache.get_timestamp from
        fun hc => hc rfl)]
      rw [hloopf]
    refine ⟨⟨e1, htick⟩, fun n => ⟨e1, ?_⟩⟩
    show (match index_pending_tick env store cache with
      | .error e2 => .error e2
      | .ok (store1, cache1, tr) =>
        match index_pending_run (fun k => (fun _ => env) (k + 1)) store1 cache1 n with
        | .error e2 => .error e2
        | .ok (store2, cache2, tr2) => .ok (store2, cache2, tr ++ tr2)) =
      Except.error e1
    rw [htick]

/-- Pending-mode environment for the failure-asymmetry witness: steady state at
timestamp 300 whose pending transaction 8 cannot be fetched. -/
def pendEnvSteadyFailW : PendingEnv where
  pending_block := .ok (300, [8])
  latest_block := .ok (300, [8])
  block_number := .ok 77
  events_from_tx_receipt := fun _ => .error (.anyhow "tx not found")
  pipeline := rangeEnvW.pipeline

/-- Pending-mode environment for the failure-asymmetry witness: rollover from
cached timestamp 300 to 400 whose latest-block transaction 8 cannot be
fetched. -/
def pendEnvRollFailW : PendingEnv where
  pending_block := .ok (400, [9])
  latest_block := .ok (300, [8])
  block_number := .ok 78
  events_from_tx_receipt := fun _ => .error (.anyhow "tx not found")
  pipeline := rangeEnvW.pipeline

theorem index_pending_fetch_failure_asymmetry_witness :
    (∃ cache2 tr,
      index_pending_tick pendEnvSteadyFailW (fun _ => none) ⟨300, []⟩ =
        .ok ((fun _ => none), cache2, tr) ∧ 8 ∉ cache2.processed) ∧
    (∃ e1, index_pending_tick pendEnvRollFailW (fun _ => none) ⟨300, []⟩ =
      .error e1) ∧
    (∃ e2, index_pending_run (fun _ => pendEnvRollFailW) (fun _ => none)
      ⟨300, []⟩ 1 = .error e2) := by
  obtain ⟨c2, tr, h1, h2⟩ :=
    index_pending_fetch_failure_asymmetry.1 pendEnvSteadyFailW (fun _ => none)
      ⟨300, []⟩ 300 [8] 8 (.anyhow "tx not found") rfl rfl (by decide)
      (by decide) rfl
  obtain ⟨⟨e1, h3⟩, h4⟩ :=
    index_pending_fetch_failure_asymmetry.2 pendEnvRollFailW (fun _ => none)
      ⟨300, []⟩ 400 78 [9] [8] 8 (.anyhow "tx not found") rfl (by decide)
      (by decide) rfl rfl (by decide) (by decide) rfl
  obtain ⟨e2, h5⟩ := h4 0
  exact ⟨⟨c2, tr, h1, h2⟩, ⟨e1, h3⟩, ⟨e2, h5⟩⟩


/-- The PendingBlockData invariant: all hashes in the processed set belong to
the block identified by the cached timestamp (`blockTxs` assigns to each
timestamp the transaction hashes of its block), and the uninitialized state
carries an empty set. -/
def PendingInv (blockTxs : Nat → List TxHash) (cache : PendingBlockData) : Prop :=
  (cache.timestamp = 0 → cache.processed = []) ∧
  (∀ x ∈ cache.processed, x ∈ blockTxs cache.timestamp)

theorem pending_txs_loop_preserves_inv (blockTxs : Nat → List TxHash)
    (env : PendingEnv) (block_number : Nat) (txs : List TxHash)
    (cache c : PendingBlockData) (tr : List Effect)
    (hts0 : cache.timestamp ≠ 0)
    (hInv : PendingInv blockTxs cache)
    (hsub : ∀ x ∈ txs, x ∈ blockTxs cache.timestamp)
    (h : pending_txs_loop env block_number cache txs = .ok (c, tr)) :
    PendingInv blockTxs c := by
  obtain ⟨h1, h2⟩ := pending_txs_loop_state env block_number txs cache c tr h
  constructor
  · intro hc0
    rw [h1] at hc0
    exact absurd hc0 hts0
  · intro x hx
    rw [h1]
    rcases h2 x hx with hx1 | hx1
    · exact hInv.2 x hx1
    · exact hsub x hx1

theorem latest_txs_loop_preserves_inv (blockTxs : Nat → List TxHash)
    (env : PendingEnv) (block_number latest_ts : Nat) (txs : List TxHash)
    (cache c : PendingBlockData) (tr : List Effect)
    (hts0 : cache.timestamp ≠ 0)
    (hlts : latest_ts = cache.timestamp)
    (hInv : PendingInv blockTxs cache)
    (hsub : ∀ x ∈ txs, x ∈ blockTxs latest_ts)
    (h : latest_txs_loop env block_number latest_ts cache txs = .ok (c, tr)) :
    PendingInv blockTxs c := by
  obtain ⟨h1, h2⟩ := latest_txs_loop_state env block_number latest_ts txs cache c tr h
  constructor
  · intro hc0
    rw [h1] at hc0
    exact absurd hc0 hts0
  · intro x hx
    rw [h1]
    rcases h2 x hx with hx1 | hx1
    · exact hInv.2 x hx1
    · rw [← hlts]
      exact hsub x hx1

theorem index_pending_tick_preserves_inv (blockTxs : Nat → List TxHash)
    (env : PendingEnv) (store store' : BlockStore) (cache cache' : PendingBlockData)
    (tr : List Effect)
    (hInv : PendingInv blockTxs cache)
    (hpend : ∀ ts txs, env.pending_block = .ok (ts, txs) →
      ts ≠ 0 ∧ ∀ x ∈ txs, x ∈ blockTxs ts)
    (h : index_pending_tick env store cache = .ok (store', cache', tr)) :
    PendingInv blockTxs cache' := by
  unfold index_pending_tick at h
  cases hpb : env.pending_block with
  | error e => rw [hpb] at h; exact absurd h (by simp)
  | ok pr =>
    obtain ⟨ts, txs⟩ := pr
    obtain ⟨hts0, hsub⟩ := hpend ts txs hpb
    rw [hpb] at h
    dsimp only at h
    by_cases h0 : cache.get_timestamp = 0
    · rw [if_pos h0] at h
      have hc1 : (cache.set_timestamp ts).get_timestamp = ts := rfl
      rw [if_neg (show ¬ ts ≠ (cache.set_timestamp ts).get_timestamp from
        fun hc => hc hc1.symm)] at h
      cases hpl : pending_txs_loop env ts (cache.set_timestamp ts) txs with
      | error e => rw [hpl] at h; exact absurd h (by simp)
      | ok pr2 =>
        obtain ⟨c2, tr2⟩ := pr2
        rw [hpl] at h
        dsimp only at h
        have htr := Except.ok.inj h
        rw [Prod.mk.injEq, Prod.mk.injEq] at htr
        obtain ⟨-, rfl, -⟩ := htr
        refine pending_txs_loop_preserves_inv blockTxs env ts txs
          (cache.set_timestamp ts) c2 tr2 hts0 ?_ hsub hpl
        constructor
        · intro hc
          exact absurd hc hts0
        · intro x hx
          have hpe : (cache.set_timestamp ts).processed = cache.processed := rfl
          rw [hpe, hInv.1 h0] at hx
          exact absurd hx (List.not_mem_nil x)
    · rw [if_neg h0] at h
      by_cases hcond : ts = cache.get_timestamp
      · rw [if_neg (fun hc => hc hcond)] at h
        cases hpl : pending_txs_loop env ts cache txs with
        | error e => rw [hpl] at h; exact absurd h (by simp)
        | ok pr2 =>
          obtain ⟨c2, tr2⟩ := pr2
          rw [hpl] at h
          dsimp only at h
          have htr := Except.ok.inj h
          rw [Prod.mk.injEq, Prod.mk.injEq] at htr
          obtain ⟨-, rfl, -⟩ := htr
          refine pending_txs_loop_preserves_inv blockTxs env ts txs cache c2 tr2
            h0 hInv ?_ hpl
          intro x hx
          have : cache.timestamp = ts := hcond.symm
          rw [this]
          exact hsub x hx
      · rw [if_pos hcond] at h
        cases hbn : env.block_number with
        | error e => rw [hbn] at h; exact absurd h (by simp)
        | ok bn =>
          rw [hbn] at h
          dsimp only at h
          cases hlb : env.latest_block with
          | error e => rw [hlb] at h; exact absurd h (by simp)
          | ok pr2 =>
            obtain ⟨latest_ts, latest_txs⟩ := pr2
            rw [hlb] at h
            dsimp only at h
            by_cases hlc : latest_ts = cache.get_timestamp
            · rw [if_neg (fun hc => hc hlc)] at h
              cases hll : latest_txs_loop env bn latest_ts cache latest_txs with
              | error e => rw [hll] at h; exact absurd h (by simp)
              | ok pr3 =>
                obtain ⟨c2, tr1⟩ := pr3
                rw [hll] at h
                dsimp only at h
                cases hpl : pending_txs_loop env ts
                    ((c2.set_timestamp ts).clear_tx_hashes) txs with
                | error e => rw [hpl] at h; exact absurd h (by simp)
                | ok pr4 =>
                  obtain ⟨c4, tr2⟩ := pr4
                  rw [hpl] at h
                  dsimp only at h
                  have htr := Except.ok.inj h
                  rw [Prod.mk.injEq, Prod.mk.injEq] at htr
                  obtain ⟨-, rfl, -⟩ := htr
                  refine pending_txs_loop_preserves_inv blockTxs env ts txs
                    ((c2.set_timestamp ts).clear_tx_hashes) c4 tr2 hts0 ?_ hsub hpl
                  constructor
                  · intro hc
                    exact absurd hc hts0
                  · intro x hx
                    exact absurd hx (List.not_mem_nil x)
            · rw [if_pos hlc] at h
              have htr := Except.ok.inj h
              rw [Prod.mk.injEq, Prod.mk.injEq] at htr
              obtain ⟨-, rfl, -⟩ := htr
              exact ⟨fun _ => rfl, fun x hx => absurd hx (List.not_mem_nil x)⟩

theorem index_pending_run_preserves_inv (blockTxs : Nat → List TxHash) :
    ∀ (n : Nat) (envs : Nat → PendingEnv) (store store' : BlockStore)
      (cache cache' : PendingBlockData) (tr : List Effect),
      PendingInv blockTxs cache →
      (∀ k ts txs, (envs k).pending_block = .ok (ts, txs) →
        ts ≠ 0 ∧ ∀ x ∈ txs, x ∈ blockTxs ts) →
      index_pending_run envs store cache n = .ok (store', cache', tr) →
      PendingInv blockTxs cache' := by
  intro n
  induction n with
  | zero =>
    intro envs store store' cache cache' tr hInv hpend h
    have htr := Except.ok.inj h
    rw [Prod.mk.injEq, Prod.mk.injEq] at htr
    obtain ⟨-, rfl, -⟩ := htr
    exact hInv
  | succ n ih =>
    intro envs store store' cache cache' tr hInv hpend h
    unfold index_pending_run at h
    cases htick : index_pending_tick (envs 0) store cache with
    | error e => rw [htick] at h; exact absurd h (by simp)
    | ok pr =>
      obtain ⟨store1, cache1, tr1⟩ := pr
      rw [htick] at h
      dsimp only at h
      cases hrun : index_pending_run (fun k => envs (k + 1)) store1 cache1 n with
      | error e => rw [hrun] at h; exact absurd h (by simp)
      | ok pr2 =>
        obtain ⟨store2, cache2, tr2⟩ := pr2
        rw [hrun] at h
        dsimp only at h
        have htr := Except.ok.inj h
        rw [Prod.mk.injEq, Prod.mk.injEq] at htr
        obtain ⟨-, rfl, -⟩ := htr
        have hInv1 := index_pending_tick_preserves_inv blockTxs (envs 0) store
          store1 cache cache1 tr1 hInv (hpend 0) htick
        exact ih (fun k => envs (k + 1)) store1 store2 cache1 cache2 tr2 hInv1
          (fun k => hpend (k + 1)) hrun


/-- C7: every mutation of `PendingBlockData` performed by `index_pending`
preserves the invariant that all hashes in the processed set belong to the
pending block identified by the cached timestamp.  The four conjuncts cover:
one whole tick; the latest-block drain loop (which only adds hashes of the
block the cached timestamp identifies); the pending loop (likewise); and any
bounded run of ticks.  Timestamp changes always come with a cleared (or
already empty, as when adopting a timestamp from the uninitialized state 0)
hash set, which is why the invariant survives every path. -/
theorem index_pending_cache_invariant (blockTxs : Nat → List TxHash) :
    (∀ (env : PendingEnv) (store store' : BlockStore)
        (cache cache' : PendingBlockData) (tr : List Effect),
      PendingInv blockTxs cache →
      (∀ ts txs, env.pending_block = .ok (ts, txs) →
        ts ≠ 0 ∧ ∀ x ∈ txs, x ∈ blockTxs ts) →
      index_pending_tick env store cache = .ok (store', cache', tr) →
      PendingInv blockTxs cache') ∧
    (∀ (env : PendingEnv) (block_number latest_ts : Nat) (txs : List TxHash)
        (cache c : PendingBlockData) (tr : List Effect),
      cache.timestamp ≠ 0 →
      latest_ts = cache.timestamp →
      PendingInv blockTxs cache →
      (∀ x ∈ txs, x ∈ blockTxs latest_ts) →
      latest_txs_loop env block_number latest_ts cache txs = .ok (c, tr) →
      PendingInv blockTxs c) ∧
    (∀ (env : PendingEnv) (block_number : Nat) (txs : List TxHash)
        (cache c : PendingBlockData) (tr : List Effect),
      cache.timestamp ≠ 0 →
      PendingInv blockTxs cache →
      (∀ x ∈ txs, x ∈ blockTxs cache.timestamp) →
      pending_txs_loop env block_number cache txs = .ok (c, tr) →
      PendingInv blockTxs c) ∧
    (∀ (n : Nat) (envs : Nat → PendingEnv) (store store' : BlockStore)
        (cache cache' : PendingBlockData) (tr : List Effect),
      PendingInv blockTxs cache →
      (∀ k ts txs, (envs k).pending_block = .ok (ts, txs) →
        ts ≠ 0 ∧ ∀ x ∈ txs, x ∈ blockTxs ts) →
      index_pending_run envs store cache n = .ok (store', cache', tr) →
      PendingInv blockTxs cache') := by
  refine ⟨?_, ?_, ?_, ?_⟩
  · intro env store store' cache cache' tr hInv hpend h
    exact index_pending_tick_preserves_inv blockTxs env store store' cache cache'
      tr hInv hpend h
  · intro env block_number latest_ts txs cache c tr hts0 hlts hInv hsub h
    exact latest_txs_loop_preserves_inv blockTxs env block_number latest_ts txs
      cache c tr hts0 hlts hInv hsub h
  · intro env block_number txs cache c tr hts0 hInv hsub h
    exact pending_txs_loop_preserves_inv blockTxs env block_number txs cache c
      tr hts0 hInv hsub h
  · intro n envs store store' cache cache' tr hInv hpend h
    exact index_pending_run_preserves_inv blockTxs n envs store store' cache
      cache' tr hInv hpend h

/-- Ground-truth block membership for the invariant witness: block 100 holds
transactions 5 and 6, block 200 holds transaction 11. -/
def blockTxsW : Nat → List TxHash :=
  fun ts => if ts = 100 then [5, 6] else if ts = 200 then [11] else []

theorem index_pending_cache_invariant_witness :
    PendingInv blockTxsW ⟨100, [5]⟩ ∧
    (∃ store' cache' tr,
      index_pending_tick pendEnvRollW (fun _ => none) ⟨100, [5]⟩ =
        .ok (store', cache', tr) ∧ PendingInv blockTxsW cache') ∧
    (∃ store' cache' tr,
      index_pending_run (fun _ => pendEnvRollW) (fun _ => none) ⟨100, [5]⟩ 1 =
        .ok (store', cache', tr) ∧ PendingInv blockTxsW cache') := by
  have hInv : PendingInv blockTxsW ⟨100, [5]⟩ := by
    constructor
    · intro hc
      exact absurd hc (by decide)
    · decide
  have hpend : ∀ ts txs, pendEnvRollW.pending_block = .ok (ts, txs) →
      ts ≠ 0 ∧ ∀ x ∈ txs, x ∈ blockTxsW ts := by
    intro ts txs h
    obtain ⟨rfl, rfl⟩ := Prod.mk.inj (Except.ok.inj h)
    exact ⟨by decide, by decide⟩
  obtain ⟨store1, cache1, tr1, htick⟩ : ∃ s c t,
      index_pending_tick pendEnvRollW (fun _ => none) ⟨100, [5]⟩ = .ok (s, c, t) :=
    ⟨_, _, _, rfl⟩
  obtain ⟨store2, cache2, tr2, hrun⟩ : ∃ s c t,
      index_pending_run (fun _ => pendEnvRollW) (fun _ => none) ⟨100, [5]⟩ 1 =
        .ok (s, c, t) :=
    ⟨_, _, _, rfl⟩
  refine ⟨hInv, ⟨store1, cache1, tr1, htick, ?_⟩, ⟨store2, cache2, tr2, hrun, ?_⟩⟩
  · exact (index_pending_cache_invariant blockTxsW).1 pendEnvRollW (fun _ => none)
      store1 ⟨100, [5]⟩ cache1 tr1 hInv hpend htick
  · exact (index_pending_cache_invariant blockTxsW).2.2.2 1 (fun _ => pendEnvRollW)
      (fun _ => none) store2 ⟨100, [5]⟩ cache2 tr2 hInv (fun _ => hpend) hrun


theorem other_contracts_skipped_before_registrar_witness :
    ∃ tr,
      process_events rangeEnvW.pipeline 5 7
        [⟨1, [7], [], 21⟩, ⟨2, [7], [], 22⟩, ⟨3, [7], [], 23⟩] = .ok tr ∧
      process_one_event rangeEnvW.pipeline 5 7 ⟨2, [7], [], 22⟩ =
        [.identifyCall 2 5] ∧
      (registrarContracts tr).Perm
        (relevantContracts rangeEnvW.pipeline 5
          [⟨1, [7], [], 21⟩, ⟨2, [7], [], 22⟩, ⟨3, [7], [], 23⟩]) := by
  obtain ⟨tr, h⟩ : ∃ tr, process_events rangeEnvW.pipeline 5 7
      [⟨1, [7], [], 21⟩, ⟨2, [7], [], 22⟩, ⟨3, [7], [], 23⟩] = .ok tr := ⟨_, rfl⟩
  have hc := other_contracts_skipped_before_registrar rangeEnvW.pipeline 5 7
    [⟨1, [7], [], 21⟩, ⟨2, [7], [], 22⟩, ⟨3, [7], [], 23⟩] tr h
  exact ⟨tr, h, hc.1 ⟨2, [7], [], 22⟩ (by decide) rfl, hc.2.2⟩

end ArkPontos
